import Mathlib

/-!
Verification development for the DDSP synthesizer library (`ddsp/synths.py` and
`ddsp/training/encoders.py`).

Tensors are modelled as nested lists of exact rationals: a rank-3 control tensor
`[batch, frames, channels]` is a `List (List (List ℚ))`, an audio signal `[batch, samples]` a
`List (List ℚ)`.  The transcendental kernels of the underlying numeric library (`exp`, `sin`)
have no exact rational form, so the definitions take them as explicit function parameters
(`expf`, `sinT`); every structural statement below is proved for all such kernels.

Functions of `ddsp/core.py` are not part of the source tree being verified (only `synths.py`,
`encoders.py` and `decoders.py` are); each of them is modelled from the specification and its
doc comment starts with "Modelled from the spec".
-/

/-- A rank-3 tensor `[batch, frames, channels]`, as nested lists of rationals. -/
abbrev Tensor3 := List (List (List ℚ))

/-- A rank-2 tensor `[batch, samples]`. -/
abbrev Tensor2 := List (List ℚ)

/-- Shape predicate for rank-2 tensors: `b` batches of `n` samples. -/
def Shape2 (t : Tensor2) (b n : ℕ) : Prop :=
  t.length = b ∧ ∀ r ∈ t, r.length = n

instance (t : Tensor2) (b n : ℕ) : Decidable (Shape2 t b n) := by
  unfold Shape2; infer_instance

/-- Shape predicate for rank-3 tensors: `b` batches, `f` frames, `c` channels. -/
def Shape3 (t : Tensor3) (b f c : ℕ) : Prop :=
  t.length = b ∧ ∀ r ∈ t, r.length = f ∧ ∀ fr ∈ r, fr.length = c

instance (t : Tensor3) (b f c : ℕ) : Decidable (Shape3 t b f c) := by
  unfold Shape3; infer_instance

/-- Entry accessor with zero default, rank 2. -/
def at2 (t : Tensor2) (b n : ℕ) : ℚ := (t.getD b []).getD n 0

/-- Entry accessor with zero default, rank 3. -/
def at3 (t : Tensor3) (b f c : ℕ) : ℚ := ((t.getD b []).getD f []).getD c 0

/-- Elementwise map over a rank-3 tensor (a TensorFlow elementwise op). -/
def map3 (f : ℚ → ℚ) (t : Tensor3) : Tensor3 := t.map (List.map (List.map f))

/-- Elementwise combination of two co-indexed rank-3 tensors. -/
def zip3 (f : ℚ → ℚ → ℚ) (s t : Tensor3) : Tensor3 :=
  List.zipWith (List.zipWith (List.zipWith f)) s t

/-- Three-list `zipWith`. -/
def zip3With (f : α → β → γ → δ) : List α → List β → List γ → List δ
  | a :: la, b :: lb, c :: lc => f a b c :: zip3With f la lb lc
  | _, _, _ => []

/-- Every scalar entry of a rank-3 tensor satisfies `p`. -/
def all3 (p : ℚ → Prop) (t : Tensor3) : Prop := ∀ r ∈ t, ∀ fr ∈ r, ∀ x ∈ fr, p x

instance (p : ℚ → Prop) [DecidablePred p] (t : Tensor3) : Decidable (all3 p t) := by
  unfold all3; infer_instance

/-- Apply an optional scale function elementwise — the `if self.scale_fn is not None:` pattern
of synths.py. -/
def applyScale (fn : Option (ℚ → ℚ)) (t : Tensor3) : Tensor3 :=
  match fn with
  | some f => map3 f t
  | none => t

/-- Modelled from the spec: `core.exp_sigmoid`, the default scaling nonlinearity.  The spec pins
down only that scale functions "map real-valued network logits to strictly-positive, typically
boundedly-increasing outputs (an exponential-sigmoid family)"; over `ℚ` it is modelled by the
strictly positive, strictly increasing, bounded function `2·σ(x) + 10⁻⁷` with the rational
sigmoid `σ(x) = 1/2 + x/(2·(1 + |x|))`. -/
def exp_sigmoid (x : ℚ) : ℚ := 2 * (1/2 + x / (2 * (1 + |x|))) + 1/10000000

/-- Modelled from the spec: `core.frequencies_sigmoid` — "Frequency controls derived from a
softmax/sigmoid over frequency bins must map bin index to Hz via a configurable min/max Hz
range".  Modelled elementwise as `hz_min + (hz_max − hz_min)·σ(x)` with the rational sigmoid. -/
def frequencies_sigmoid (x hz_min hz_max : ℚ) : ℚ :=
  hz_min + (hz_max - hz_min) * (1/2 + x / (2 * (1 + |x|)))

/-- Modelled from the spec (§4.2): `core.remove_above_nyquist` — "given a tensor of
per-component frequencies `[B,T,C]` and a co-indexed tensor of amplitudes/distribution weights
of the same shape, and a sample rate, zero out every amplitude whose corresponding frequency
≥ sample_rate/2.  Purely elementwise; no smoothing — a hard mask." -/
def remove_above_nyquist (frequencies amplitudes : Tensor3) (sample_rate : ℚ) : Tensor3 :=
  zip3 (fun fq a => if fq < sample_rate / 2 then a else 0) frequencies amplitudes

/-- Modelled from the spec: `core.get_harmonic_frequencies` — the "harmonic-frequency grid
(f0 × harmonic index)" of §4.5: harmonic `k` (0-based) of a fundamental `f0` lies at
`f0 · (k+1)`. -/
def get_harmonic_frequencies (f0_hz : Tensor3) (n_harmonics : ℕ) : Tensor3 :=
  f0_hz.map (List.map (fun fr =>
    (List.range n_harmonics).map (fun k => fr.headD 0 * ((k + 1 : ℕ) : ℚ))))

/-- Modelled from the spec (§4.1): one batch row of `core.resample` — interpolation across the
frame axis stretching `F` frames to `n` samples.  All interpolation modes named by the source
('linear', 'cubic', 'window' overlap-add) obey the same shape contract and no claim under
verification distinguishes their kernels, so all are modelled by the linear kernel.  The frame
index is clamped to the last frame; for in-range positions the clamp has no effect. -/
def resampleRow (frames : List (List ℚ)) (n : ℕ) : List (List ℚ) :=
  (List.range n).map (fun (i : ℕ) =>
    let F := frames.length
    let pos : ℚ := if n ≤ 1 ∨ F ≤ 1 then 0 else (i : ℚ) * ((F : ℚ) - 1) / ((n : ℚ) - 1)
    let j : ℕ := min (⌊pos⌋).toNat (F - 1)
    let frac : ℚ := pos - (j : ℚ)
    List.zipWith (fun a b => (1 - frac) * a + frac * b)
      (frames.getD j []) (frames.getD (min (j + 1) (F - 1)) []))

/-- Modelled from the spec (§4.1): `core.resample`, batched.  The `_method` parameter mirrors
the `method=` argument of the source; see `resampleRow` for why all modes share one kernel. -/
def resample (t : Tensor3) (n : ℕ) (_method : String) : Tensor3 :=
  t.map (fun r => resampleRow r n)

/-- Running inclusive cumulative sum across the frame axis, per channel: the phase accumulator
of spec §4.3, continuous across frame boundaries. -/
def cumsumRows (frames : List (List ℚ)) : List (List ℚ) :=
  (frames.scanl (fun acc fr => List.zipWith (fun a x => a + x) acc fr)
      ((frames.headD []).map (fun _ => (0 : ℚ)))).drop 1

/-- Modelled from the spec (§4.3): `core.oscillator_bank` — output `[B, N]` audio, the sum over
channels of `amplitude[b,n,c] * sin(phase[b,n,c])` where phase is the running integral
(cumulative sum) of `2π·frequency/sample_rate` across the sample axis.  Phase is tracked in
cycles (`frequency/sample_rate` accumulated) and `sinT φ` stands for `sin (2π·φ)`; over the
exact rationals no modular wrapping is needed. -/
def oscillator_bank (frequency_envelopes amplitude_envelopes : Tensor3) (sample_rate : ℚ)
    (sinT : ℚ → ℚ) : Tensor2 :=
  List.zipWith (fun fb ab =>
    let phases := cumsumRows (fb.map (List.map (fun x => x / sample_rate)))
    List.zipWith (fun ph afr => (List.zipWith (fun p a => a * sinT p) ph afr).sum) phases ab)
    frequency_envelopes amplitude_envelopes

/-- `int(t.shape[-1])` as read by the source on a `[B,T,C]` tensor. -/
def channels3 (t : Tensor3) : ℕ := ((t.headD []).headD []).length

/-- Broadcast product `distribution[b,t,c] * amplitudes[b,t,0]` (TensorFlow broadcasting of
`[B,T,C]` against `[B,T,1]`). -/
def mulBroadcastAmp (distribution amplitudes : Tensor3) : Tensor3 :=
  List.zipWith (List.zipWith (fun dfr afr => dfr.map (fun d => d * afr.headD 0)))
    distribution amplitudes

/-- Modelled from the spec: `core.harmonic_synthesis` — §4.5 (Harmonic row): "call oscillator
bank (4.3) on harmonic-frequency grid (f0 × harmonic index) times amplitude×distribution"; per
§8 the control envelopes are stretched to `n_samples` so the output is always
`[batch, n_samples]`. -/
def harmonic_synthesis (frequencies amplitudes harmonic_distribution : Tensor3)
    (n_samples : ℕ) (sample_rate : ℚ) (sinT : ℚ → ℚ) : Tensor2 :=
  let n_harmonics := channels3 harmonic_distribution
  let harmonic_frequencies := get_harmonic_frequencies frequencies n_harmonics
  let harmonic_amplitudes := mulBroadcastAmp harmonic_distribution amplitudes
  oscillator_bank (resample harmonic_frequencies n_samples ("linear"))
    (resample harmonic_amplitudes n_samples ("window")) sample_rate sinT

/-- The in-place normalization `t /= tf.reduce_sum(t, axis=-1, keepdims=True)` of synths.py
line 103: divide every entry by its frame's sum.  Over `ℚ`, division by a zero frame sum yields
`0` (TensorFlow produces NaN there; claims C2 and C4 probe exactly that corner). -/
def normalizeLast (t : Tensor3) : Tensor3 :=
  t.map (List.map (fun fr => fr.map (fun x => x / fr.sum)))

/-- Per-frame sums along the last axis (`tf.reduce_sum(·, axis=-1)`). -/
def lastAxisSums (t : Tensor3) : Tensor2 := t.map (List.map List.sum)

/-- Look up a control tensor by key in a `get_controls` result. -/
def ctlGet (controls : List (String × Tensor3)) (key : String) : Tensor3 :=
  ((controls.find? (fun kv => kv.1 == key)).map Prod.snd).getD []

/-- The keys of a `get_controls` result, in order. -/
def controlKeys (controls : List (String × Tensor3)) : List String := controls.map Prod.fst

/-- synths.py `TensorToAudio`: identity "synth"; it has no hyper-parameters beyond its name. -/
structure TensorToAudio

/-- synths.py lines 31–41, `TensorToAudio.get_controls`. -/
def TensorToAudio.get_controls (_M : TensorToAudio) (samples : Tensor3) :
    List (String × Tensor3) :=
  [("samples", samples)]

/-- synths.py lines 43–53, `TensorToAudio.get_signal`: `tf.squeeze(samples, 2)` — remove the
trailing singleton channel axis of a `[batch, time, 1]` tensor. -/
def TensorToAudio.get_signal (_M : TensorToAudio) (samples : Tensor3) : Tensor2 :=
  samples.map (List.map (fun fr => fr.headD 0))

/-- The parameter names of `TensorToAudio.get_signal`. -/
def TensorToAudio.signal_params : List String := ["samples"]

/-- synths.py lines 60–70, the `Harmonic.__init__` configuration. -/
structure Harmonic where
  n_samples : ℕ
  sample_rate : ℚ
  scale_fn : Option (ℚ → ℚ)
  normalize_below_nyquist : Bool

/-- synths.py lines 72–109, `Harmonic.get_controls`: scale amplitudes and distribution,
optionally band-limit the distribution below Nyquist, then normalize the distribution by its
per-frame sums. -/
def Harmonic.get_controls (M : Harmonic) (amplitudes harmonic_distribution f0_hz : Tensor3) :
    List (String × Tensor3) :=
  let amplitudes := applyScale M.scale_fn amplitudes
  let harmonic_distribution := applyScale M.scale_fn harmonic_distribution
  let harmonic_distribution :=
    if M.normalize_below_nyquist then
      remove_above_nyquist
        (get_harmonic_frequencies f0_hz (channels3 harmonic_distribution))
        harmonic_distribution M.sample_rate
    else harmonic_distribution
  let harmonic_distribution := normalizeLast harmonic_distribution
  [("amplitudes", amplitudes), ("harmonic_distribution", harmonic_distribution),
   ("f0_hz", f0_hz)]

/-- synths.py lines 111–132, `Harmonic.get_signal`: delegate to `core.harmonic_synthesis`. -/
def Harmonic.get_signal (M : Harmonic) (sinT : ℚ → ℚ)
    (amplitudes harmonic_distribution f0_hz : Tensor3) : Tensor2 :=
  harmonic_synthesis f0_hz amplitudes harmonic_distribution M.n_samples M.sample_rate sinT

/-- The parameter names of `Harmonic.get_signal`. -/
def Harmonic.signal_params : List String := ["amplitudes", "harmonic_distribution", "f0_hz"]

/-- synths.py lines 139–149, the `FilteredNoise.__init__` configuration. -/
structure FilteredNoise where
  n_samples : ℕ
  window_size : ℕ
  scale_fn : Option (ℚ → ℚ)
  initial_bias : ℚ

/-- synths.py lines 151–165, `FilteredNoise.get_controls`: scale the magnitudes after adding
the initial bias. -/
def FilteredNoise.get_controls (M : FilteredNoise) (magnitudes : Tensor3) :
    List (String × Tensor3) :=
  let magnitudes :=
    match M.scale_fn with
    | some f => map3 (fun x => f (x + M.initial_bias)) magnitudes
    | none => magnitudes
  [("magnitudes", magnitudes)]

/-- Modelled from the spec (§4.4): `core.frequency_filter` — "construct a time-varying FIR via
inverse transform of each frame's magnitude spectrum … equivalent to short-time convolution
with a slowly time-varying filter", reconstructing a `[B, N]` output.  The inverse transform of
a magnitude frame is a trigonometric sum with no exact rational form, so it is kept abstract as
the parameter `ir`; the per-sample filter is obtained by stretching the frame axis to the
signal length, and each output sample is the windowed causal convolution of the signal with the
filter at that sample. -/
def frequency_filter (ir : List ℚ → List ℚ) (signal : Tensor2) (magnitudes : Tensor3)
    (window_size : ℕ) : Tensor2 :=
  List.zipWith (fun sig mb =>
    let magsUp := resampleRow mb sig.length
    (List.range sig.length).map (fun n =>
      let h := ir (magsUp.getD n [])
      ((List.range window_size).map (fun k =>
        h.getD k 0 * (if k ≤ n then sig.getD (n - k) 0 else 0))).sum))
    signal magnitudes

/-- synths.py lines 167–182, `FilteredNoise.get_signal`: filter fresh uniform white noise of
shape `[batch, n_samples]` through the frequency-domain filter.  The `tf.random.uniform` draw
of line 178 is passed explicitly as `noise` — one fresh draw per invocation. -/
def FilteredNoise.get_signal (M : FilteredNoise) (ir : List ℚ → List ℚ) (noise : Tensor2)
    (magnitudes : Tensor3) : Tensor2 :=
  frequency_filter ir noise magnitudes M.window_size

/-- The parameter names of `FilteredNoise.get_signal`. -/
def FilteredNoise.signal_params : List String := ["magnitudes"]

/-- synths.py lines 189–197, the `Wavetable.__init__` configuration. -/
structure Wavetable where
  n_samples : ℕ
  sample_rate : ℚ
  scale_fn : Option (ℚ → ℚ)

/-- synths.py lines 199–222, `Wavetable.get_controls`. -/
def Wavetable.get_controls (M : Wavetable) (amplitudes wavetables f0_hz : Tensor3) :
    List (String × Tensor3) :=
  let amplitudes := applyScale M.scale_fn amplitudes
  let wavetables := applyScale M.scale_fn wavetables
  [("amplitudes", amplitudes), ("wavetables", wavetables), ("f0_hz", f0_hz)]

/-- Modelled from the spec: `core.wavetable_synthesis` — §4.5 (Wavetable row): read the
per-sample wavetables out "via oscillator-style synthesis driven by f0": accumulate phase in
cycles from the stretched f0 envelope, linearly interpolate a wraparound lookup into each
sample's wavetable row, and scale by the stretched amplitude envelope. -/
def wavetable_synthesis (amplitudes wavetables frequencies : Tensor3) (n_samples : ℕ)
    (sample_rate : ℚ) : Tensor2 :=
  let amp_env := resample amplitudes n_samples ("window")
  let freq_env := resample frequencies n_samples ("linear")
  zip3With (fun ab wb fb =>
    let phases := cumsumRows (fb.map (List.map (fun x => x / sample_rate)))
    (List.range n_samples).map (fun n =>
      let ph := Int.fract ((phases.getD n []).getD 0 0)
      let w := wb.getD n []
      let pos := ph * (w.length : ℚ)
      let j := min (⌊pos⌋).toNat (w.length - 1)
      let frac := pos - (j : ℚ)
      ((ab.getD n []).getD 0 0) *
        ((1 - frac) * w.getD j 0 + frac * w.getD ((j + 1) % w.length) 0)))
    amp_env wavetables freq_env

/-- synths.py lines 224–243, `Wavetable.get_signal`: stretch the wavetables to `n_samples`, then
delegate to `core.wavetable_synthesis`. -/
def Wavetable.get_signal (M : Wavetable) (amplitudes wavetables f0_hz : Tensor3) : Tensor2 :=
  let wavetables := resample wavetables M.n_samples ("linear")
  wavetable_synthesis amplitudes wavetables f0_hz M.n_samples M.sample_rate

/-- The parameter names of `Wavetable.get_signal`. -/
def Wavetable.signal_params : List String := ["amplitudes", "wavetables", "f0_hz"]

/-- synths.py lines 250–262, the `Sinusoidal.__init__` configuration. -/
structure Sinusoidal where
  n_samples : ℕ
  sample_rate : ℚ
  amp_scale_fn : Option (ℚ → ℚ)
  amp_resample_method : String
  freq_scale_fn : Option (ℚ → ℚ)

/-- synths.py lines 264–287, `Sinusoidal.get_controls`: scale the amplitudes; when a frequency
scale function is configured, scale the frequencies and mask amplitudes above Nyquist. -/
def Sinusoidal.get_controls (M : Sinusoidal) (amplitudes frequencies : Tensor3) :
    List (String × Tensor3) :=
  let amplitudes := applyScale M.amp_scale_fn amplitudes
  match M.freq_scale_fn with
  | some g =>
    let frequencies := map3 g frequencies
    let amplitudes := remove_above_nyquist frequencies amplitudes M.sample_rate
    [("amplitudes", amplitudes), ("frequencies", frequencies)]
  | none => [("amplitudes", amplitudes), ("frequencies", frequencies)]

/-- synths.py lines 289–309, `Sinusoidal.get_signal`: stretch both controls to per-sample
envelopes and drive the oscillator bank. -/
def Sinusoidal.get_signal (M : Sinusoidal) (sinT : ℚ → ℚ)
    (amplitudes frequencies : Tensor3) : Tensor2 :=
  let amplitude_envelopes := resample amplitudes M.n_samples M.amp_resample_method
  let frequency_envelopes := resample frequencies M.n_samples ("linear")
  oscillator_bank frequency_envelopes amplitude_envelopes M.sample_rate sinT

/-- The parameter names of `Sinusoidal.get_signal`. -/
def Sinusoidal.signal_params : List String := ["amplitudes", "frequencies"]

/-- synths.py lines 316–330, the `Impact.__init__` configuration. -/
structure Impact where
  n_samples : ℕ
  sample_rate : ℚ
  mag_scale_fn : Option (ℚ → ℚ)
  resample_method : String
  max_tau : ℚ
  max_impact_frequency : ℚ

/-- `int(self.sample_rate / self.max_impact_frequency)` of synths.py line 384 (Python `int`
truncation; the configuration values are positive, so truncation is the floor). -/
def Impact.window_size (M : Impact) : ℕ := (⌊M.sample_rate / M.max_impact_frequency⌋).toNat

/-- synths.py lines 332–356, `Impact.get_controls`: perturb the magnitudes with Gaussian noise
scaled by `|stdevs|`, scale them, and build the tau envelope
`max_tau · f(2·tau_multiplier) · f(taus/2) + 1/sample_rate` (the `[B,1,1]` multiplier
broadcasts across frames).  The draw `tf.random.normal(stdevs.shape)` of line 350 is passed
explicitly as `noise` — one fresh draw per invocation. -/
def Impact.get_controls (M : Impact) (noise : Tensor3)
    (magnitudes stdevs taus tau_multiplier : Tensor3) : List (String × Tensor3) :=
  match M.mag_scale_fn with
  | some f =>
    let perturbation := zip3 (fun s z => |s| * z) stdevs noise
    let magnitudes := zip3 (fun m nz => f (m + nz)) magnitudes perturbation
    let taus := List.zipWith (fun tb tmb =>
        tb.map (List.map (fun x =>
          M.max_tau * f (2 * ((tmb.headD []).getD 0 0)) * f ((1/2) * x) + 1 / M.sample_rate)))
      taus tau_multiplier
    [("magnitudes", magnitudes), ("stdevs", stdevs), ("taus", taus)]
  | none => [("magnitudes", magnitudes), ("stdevs", stdevs), ("taus", taus)]

/-- Fold step for first-tie argmax: keep the current best unless a strictly larger value
appears. -/
def argmaxFirstAux (v : ℕ → ℚ) : ℕ → List ℕ → ℕ
  | best, [] => best
  | best, j :: js => argmaxFirstAux v (if v best < v j then j else best) js

/-- Index of the maximum of `v` over `[lo, lo+len)`, first index on ties — the tie-break policy
of `tf.nn.max_pool_with_argmax`. -/
def argmaxFirst (v : ℕ → ℚ) (lo len : ℕ) : ℕ :=
  argmaxFirstAux v lo (List.range' (lo + 1) (len - 1))

/-- synths.py lines 359–362, `Impact.hertz_gaussian`, as the scalar pulse kernel: the Gaussian
pulse `exp(-6/τ² · (t − peak − τ/2)²)` evaluated on the sample-time grid `t = n/sample_rate`. -/
def Impact.hertz_gaussian (M : Impact) (expf : ℚ → ℚ) (peak tau : ℚ) (n : ℕ) : ℚ :=
  expf (-6 / tau ^ 2 * ((n : ℚ) / M.sample_rate - peak - tau / 2) ^ 2)

/-- synths.py lines 364–390, `Impact.get_signal`: stretch magnitude and tau envelopes to
per-sample resolution, pick one peak per window with `tf.nn.max_pool_with_argmax` (kernel =
stride = `window_size`, SAME padding: `P = ⌈N/ws⌉` windows with `⌊(P·ws − N)/2⌋` padded
positions in front, windows clipped to the signal; padded positions hold `-inf` and never win
the max), convert the winning flat indices to peak times `p/sample_rate`, and sum the Gaussian
pulses scaled by the peak magnitudes.  `stdevs` is accepted and ignored, as in the source. -/
def Impact.get_signal (M : Impact) (expf : ℚ → ℚ) (magnitudes _stdevs taus : Tensor3) :
    Tensor2 :=
  let N := M.n_samples
  let magnitude_envelopes := resample magnitudes N M.resample_method
  let taus_up := resample taus N M.resample_method
  let ws := M.window_size
  let P := (N + ws - 1) / ws
  let padBeg : ℤ := ((P * ws - N : ℕ) : ℤ) / 2
  List.zipWith (fun mb tb =>
    let v : ℕ → ℚ := fun n => (mb.getD n []).getD 0 0
    let peaks : List ℕ := (List.range P).map (fun i =>
      let s : ℤ := ((i * ws : ℕ) : ℤ) - padBeg
      let lo : ℕ := (max 0 s).toNat
      let hi : ℕ := (min (N : ℤ) (s + (ws : ℤ))).toNat
      argmaxFirst v lo (hi - lo))
    (List.range N).map (fun n =>
      let tau := (tb.getD n []).getD 0 0
      (peaks.map (fun p => v p * M.hertz_gaussian expf ((p : ℚ) / M.sample_rate) tau n)).sum))
    magnitude_envelopes taus_up

/-- The parameter names of `Impact.get_signal`. -/
def Impact.signal_params : List String := ["magnitudes", "stdevs", "taus"]

/-- The per-sample envelope value the Impact synth works with: channel 0 of the stretched
control at batch `bi`, sample `n`. -/
def Impact.envelope (M : Impact) (t : Tensor3) (bi n : ℕ) : ℚ :=
  at3 (resample t M.n_samples M.resample_method) bi n 0

/-- The peak index the Impact synth selects in window `i`; when `window_size ∣ n_samples`,
window `i` covers samples `[i·ws, (i+1)·ws)` exactly. -/
def Impact.peak (M : Impact) (magnitudes : Tensor3) (bi i : ℕ) : ℕ :=
  argmaxFirst (fun n => M.envelope magnitudes bi n) (i * M.window_size) M.window_size

/-- synths.py lines 396–412, the `ModalFIR.__init__` configuration. -/
structure ModalFIR where
  n_samples : ℕ
  sample_rate : ℚ
  amp_scale_fn : Option (ℚ → ℚ)
  amp_resample_method : String
  freq_scale_fn : Option (ℚ → ℚ → ℚ → ℚ)
  hz_max : ℚ
  initial_bias : ℚ

/-- synths.py lines 414–441, `ModalFIR.get_controls`: scale gains and dampings (the damping
path reuses `freq_scale_fn` with range `[0, 100000]`; a configuration with `amp_scale_fn` set
but `freq_scale_fn = None` raises a TypeError in Python at line 432 and is modelled by leaving
the dampings unscaled), then scale the frequencies into `[0, hz_max]` and mask the gains above
Nyquist. -/
def ModalFIR.get_controls (M : ModalFIR) (gains frequencies dampings : Tensor3) :
    List (String × Tensor3) :=
  let gd :=
    match M.amp_scale_fn, M.freq_scale_fn with
    | some f, some g =>
      (map3 (fun x => (1/100) * f (4 * x + M.initial_bias)) gains,
       map3 (fun x => (1/20) * g x 0 100000) dampings)
    | some f, none => (map3 (fun x => (1/100) * f (4 * x + M.initial_bias)) gains, dampings)
    | none, _ => (gains, dampings)
  match M.freq_scale_fn with
  | some g =>
    let frequencies := map3 (fun x => g x 0 M.hz_max) frequencies
    let gains := remove_above_nyquist frequencies gd.1 M.sample_rate
    [("gains", gains), ("frequencies", frequencies), ("dampings", gd.2)]
  | none => [("gains", gd.1), ("frequencies", frequencies), ("dampings", gd.2)]

/-- synths.py lines 458–459: the per-sample exponential-decay amplitude envelope
`gains * tf.exp(-dampings * t)` with `t = n/sample_rate`.  The `[B,1,C]` controls broadcast
against the `[N,1]` time column to `[B,N,C]` (the source relies on `n_frames = 1` here: any
other frame count would fail TensorFlow broadcasting). -/
def ModalFIR.amplitude_envelopes (M : ModalFIR) (expf : ℚ → ℚ) (gains dampings : Tensor3) :
    Tensor3 :=
  List.zipWith (fun gb db =>
    (List.range M.n_samples).map (fun (n : ℕ) =>
      List.zipWith (fun g d => g * expf (-(d * ((n : ℚ) / M.sample_rate))))
        (gb.headD []) (db.headD [])))
    gains dampings

/-- synths.py line 460: `frequencies * tf.ones_like(amplitude_envelopes)` — each partial's
frequency held constant over all samples (no resampling). -/
def ModalFIR.frequency_envelopes (frequencies amplitude_envelopes : Tensor3) : Tensor3 :=
  List.zipWith (fun fb ab => ab.map (fun afr =>
      List.zipWith (fun x _ => x) (fb.headD []) afr))
    frequencies amplitude_envelopes

/-- synths.py lines 443–465, `ModalFIR.get_signal`: drive the oscillator bank with the decaying
envelopes and held frequencies, then `tf.concat((tf.zeros_like(ir_half), ir_half), axis=1)`. -/
def ModalFIR.get_signal (M : ModalFIR) (expf sinT : ℚ → ℚ)
    (gains frequencies dampings : Tensor3) : Tensor2 :=
  let amplitude_envelopes := M.amplitude_envelopes expf gains dampings
  let frequency_envelopes := ModalFIR.frequency_envelopes frequencies amplitude_envelopes
  let ir_half := oscillator_bank frequency_envelopes amplitude_envelopes M.sample_rate sinT
  ir_half.map (fun r => r.map (fun _ => (0 : ℚ)) ++ r)

/-- The parameter names of `ModalFIR.get_signal`. -/
def ModalFIR.signal_params : List String := ["gains", "frequencies", "dampings"]

/-- src/ddsp/training/encoders.py lines 88–125: the construction-time validation and
`z_audio_spec` table of `MfccTimeDistributedRnnEncoder.__init__`.  The Python `ValueError` is
modelled as `Except.error`; a successful construction returns the `(fft_size, overlap)` pair
the table assigns to `mfcc_time_steps`. -/
def MfccTimeDistributedRnnEncoder.init_config (mfcc_time_steps : ℤ) : Except String (ℕ × ℚ) :=
  if mfcc_time_steps ∈ ([63, 125, 250, 500, 1000] : List ℤ) then
    Except.ok
      (if mfcc_time_steps = 63 then (2048, 1/2)
       else if mfcc_time_steps = 125 then (1024, 1/2)
       else if mfcc_time_steps = 250 then (1024, 3/4)
       else if mfcc_time_steps = 500 then (512, 3/4)
       else (256, 3/4))
  else Except.error "mfcc_time_steps currently limited to 63,125,250,500 and 1000"

/-!
### Generic list lemmas
-/

theorem mem_zipWith {f : α → β → γ} {l₁ : List α} {l₂ : List β} {x : γ}
    (h : x ∈ List.zipWith f l₁ l₂) : ∃ a ∈ l₁, ∃ b ∈ l₂, x = f a b := by
  induction l₁ generalizing l₂ with
  | nil => simp at h
  | cons a la ih =>
    cases l₂ with
    | nil => simp at h
    | cons b lb =>
      simp only [List.zipWith_cons_cons, List.mem_cons] at h
      rcases h with rfl | h
      · exact ⟨a, by simp, b, by simp, rfl⟩
      · obtain ⟨a', ha, b', hb, rfl⟩ := ih h
        exact ⟨a', by simp [ha], b', by simp [hb], rfl⟩

theorem mem_zip3With {f : α → β → γ → δ} {la : List α} {lb : List β} {lc : List γ} {x : δ}
    (h : x ∈ zip3With f la lb lc) : ∃ a ∈ la, ∃ b ∈ lb, ∃ c ∈ lc, x = f a b c := by
  induction la generalizing lb lc with
  | nil => simp [zip3With] at h
  | cons a la' ih =>
    cases lb with
    | nil => simp [zip3With] at h
    | cons b lb' =>
      cases lc with
      | nil => simp [zip3With] at h
      | cons c lc' =>
        simp only [zip3With, List.mem_cons] at h
        rcases h with rfl | h
        · exact ⟨a, by simp, b, by simp, c, by simp, rfl⟩
        · obtain ⟨a', ha, b', hb, c', hc, rfl⟩ := ih h
          exact ⟨a', by simp [ha], b', by simp [hb], c', by simp [hc], rfl⟩

theorem length_zip3With (f : α → β → γ → δ) :
    ∀ (la : List α) (lb : List β) (lc : List γ),
      (zip3With f la lb lc).length = min la.length (min lb.length lc.length)
  | [], lb, lc => by simp [zip3With]
  | a :: la, [], lc => by simp [zip3With]
  | a :: la, b :: lb, [] => by simp [zip3With]
  | a :: la, b :: lb, c :: lc => by
    simp only [zip3With, List.length_cons, length_zip3With f la lb lc]
    omega

theorem getD_mem {l : List α} {i : ℕ} {d : α} (h : i < l.length) : l.getD i d ∈ l := by
  rw [List.getD_eq_getElem l d h]
  exact List.getElem_mem h

/-!
### Shape lemmas for the embedded primitives
-/

theorem shape3_map3 {t : Tensor3} {b f c : ℕ} (g : ℚ → ℚ) (h : Shape3 t b f c) :
    Shape3 (map3 g t) b f c := by
  obtain ⟨h1, h2⟩ := h
  refine ⟨by simp [map3, h1], ?_⟩
  intro r hr
  simp only [map3, List.mem_map] at hr
  obtain ⟨r0, hr0, rfl⟩ := hr
  obtain ⟨hl, hc⟩ := h2 r0 hr0
  refine ⟨by simp [hl], ?_⟩
  intro fr hfr
  simp only [List.mem_map] at hfr
  obtain ⟨fr0, hfr0, rfl⟩ := hfr
  simp [hc fr0 hfr0]

theorem shape3_applyScale {t : Tensor3} {b f c : ℕ} (fn : Option (ℚ → ℚ))
    (h : Shape3 t b f c) : Shape3 (applyScale fn t) b f c := by
  cases fn with
  | some g => exact shape3_map3 g h
  | none => exact h

theorem shape3_zip3 {s t : Tensor3} {b f c : ℕ} (g : ℚ → ℚ → ℚ)
    (hs : Shape3 s b f c) (ht : Shape3 t b f c) : Shape3 (zip3 g s t) b f c := by
  refine ⟨by simp [zip3, hs.1, ht.1], ?_⟩
  intro r hr
  obtain ⟨r1, hr1, r2, hr2, rfl⟩ := mem_zipWith hr
  have h1 := hs.2 r1 hr1
  have h2 := ht.2 r2 hr2
  refine ⟨by simp [h1.1, h2.1], ?_⟩
  intro fr hfr
  obtain ⟨f1, hf1, f2, hf2, rfl⟩ := mem_zipWith hfr
  simp [h1.2 f1 hf1, h2.2 f2 hf2]

theorem shape3_remove_above_nyquist {fq a : Tensor3} {b f c : ℕ} {sr : ℚ}
    (hfq : Shape3 fq b f c) (ha : Shape3 a b f c) :
    Shape3 (remove_above_nyquist fq a sr) b f c :=
  shape3_zip3 _ hfq ha

theorem shape3_get_harmonic_frequencies {f0 : Tensor3} {b f c : ℕ} (k : ℕ)
    (h : Shape3 f0 b f c) : Shape3 (get_harmonic_frequencies f0 k) b f k := by
  obtain ⟨h1, h2⟩ := h
  refine ⟨by simp [get_harmonic_frequencies, h1], ?_⟩
  intro r hr
  simp only [get_harmonic_frequencies, List.mem_map] at hr
  obtain ⟨r0, hr0, rfl⟩ := hr
  refine ⟨by simp [(h2 r0 hr0).1], ?_⟩
  intro fr hfr
  simp only [List.mem_map] at hfr
  obtain ⟨fr0, hfr0, rfl⟩ := hfr
  simp

theorem shape3_normalizeLast {t : Tensor3} {b f c : ℕ} (h : Shape3 t b f c) :
    Shape3 (normalizeLast t) b f c := by
  obtain ⟨h1, h2⟩ := h
  refine ⟨by simp [normalizeLast, h1], ?_⟩
  intro r hr
  simp only [normalizeLast, List.mem_map] at hr
  obtain ⟨r0, hr0, rfl⟩ := hr
  obtain ⟨hl, hc⟩ := h2 r0 hr0
  refine ⟨by simp [hl], ?_⟩
  intro fr hfr
  simp only [List.mem_map] at hfr
  obtain ⟨fr0, hfr0, rfl⟩ := hfr
  simp [hc fr0 hfr0]

theorem shape3_mulBroadcastAmp {d a : Tensor3} {b f c ca : ℕ}
    (hd : Shape3 d b f c) (ha : Shape3 a b f ca) :
    Shape3 (mulBroadcastAmp d a) b f c := by
  refine ⟨by simp [mulBroadcastAmp, hd.1, ha.1], ?_⟩
  intro r hr
  obtain ⟨r1, hr1, r2, hr2, rfl⟩ := mem_zipWith hr
  have h1 := hd.2 r1 hr1
  have h2 := ha.2 r2 hr2
  refine ⟨by simp [h1.1, h2.1], ?_⟩
  intro fr hfr
  obtain ⟨f1, hf1, f2, hf2, rfl⟩ := mem_zipWith hfr
  simp [h1.2 f1 hf1]

theorem shape3_resampleRow {r : List (List ℚ)} {f c : ℕ} (hf : 1 ≤ f)
    (hlen : r.length = f) (hc : ∀ fr ∈ r, fr.length = c) (n : ℕ) :
    (resampleRow r n).length = n ∧ ∀ fr ∈ resampleRow r n, fr.length = c := by
  constructor
  · simp only [resampleRow, List.length_map, List.length_range]
  · intro fr hfr
    simp only [resampleRow, List.mem_map, List.mem_range] at hfr
    obtain ⟨i, hi, rfl⟩ := hfr
    have hF : 1 ≤ r.length := by omega
    have hj : ∀ p : ℚ, min (⌊p⌋).toNat (r.length - 1) < r.length :=
      fun p => Nat.lt_of_le_of_lt (Nat.min_le_right _ _) (by omega)
    have hj2 : ∀ j : ℕ, min (j + 1) (r.length - 1) < r.length :=
      fun j => Nat.lt_of_le_of_lt (Nat.min_le_right _ _) (by omega)
    simp only [List.length_zipWith]
    rw [hc _ (getD_mem (hj _)), hc _ (getD_mem (hj2 _))]
    omega

theorem shape3_resample {t : Tensor3} {b f c : ℕ} (hf : 1 ≤ f) (h : Shape3 t b f c)
    (n : ℕ) (m : String) : Shape3 (resample t n m) b n c := by
  obtain ⟨h1, h2⟩ := h
  refine ⟨by simp [resample, h1], ?_⟩
  intro r hr
  simp only [resample, List.mem_map] at hr
  obtain ⟨r0, hr0, rfl⟩ := hr
  exact shape3_resampleRow hf (h2 r0 hr0).1 (h2 r0 hr0).2 n

theorem length_cumsumRows (frames : List (List ℚ)) :
    (cumsumRows frames).length = frames.length := by
  simp [cumsumRows, List.length_scanl]

theorem shape2_oscillator_bank {F A : Tensor3} {b n cF cA : ℕ} {sr : ℚ} {sinT : ℚ → ℚ}
    (hF : Shape3 F b n cF) (hA : Shape3 A b n cA) :
    Shape2 (oscillator_bank F A sr sinT) b n := by
  refine ⟨by simp [oscillator_bank, hF.1, hA.1], ?_⟩
  intro r hr
  obtain ⟨fb, hfb, ab, hab, rfl⟩ := mem_zipWith hr
  have h1 : (cumsumRows (fb.map (List.map (fun x => x / sr)))).length = n := by
    rw [length_cumsumRows]
    simp [(hF.2 fb hfb).1]
  simp [List.length_zipWith, h1, (hA.2 ab hab).1]

/-!
### First-tie argmax lemmas
-/

theorem argmaxFirstAux_spec (v : ℕ → ℚ) :
    ∀ (js : List ℕ) (best : ℕ), (∀ x ∈ js, best < x) → js.Pairwise (· < ·) →
      (argmaxFirstAux v best js = best ∨ argmaxFirstAux v best js ∈ js)
      ∧ v best ≤ v (argmaxFirstAux v best js)
      ∧ (∀ j ∈ js, v j ≤ v (argmaxFirstAux v best js))
      ∧ (∀ j, (j = best ∨ j ∈ js) → j < argmaxFirstAux v best js →
          v j < v (argmaxFirstAux v best js)) := by
  intro js
  induction js with
  | nil =>
    intro best _ _
    simp [argmaxFirstAux]
  | cons j js ih =>
    intro best hgt hpw
    have hbj : best < j := hgt j (by simp)
    have hjs : ∀ x ∈ js, j < x := fun x hx => (List.pairwise_cons.mp hpw).1 x hx
    have hgt' : ∀ x ∈ js, (if v best < v j then j else best) < x := by
      intro x hx
      by_cases hvb : v best < v j
      · simpa [hvb] using hjs x hx
      · simpa [hvb] using lt_trans hbj (hjs x hx)
    have hpw' : js.Pairwise (· < ·) := (List.pairwise_cons.mp hpw).2
    have IH := ih (if v best < v j then j else best) hgt' hpw'
    have hr : argmaxFirstAux v best (j :: js)
        = argmaxFirstAux v (if v best < v j then j else best) js := rfl
    set r := argmaxFirstAux v (if v best < v j then j else best) js with hrdef
    rw [hr]
    by_cases hvb : v best < v j
    · simp only [if_pos hvb] at IH
      refine ⟨?_, ?_, ?_, ?_⟩
      · rcases IH.1 with h | h
        · exact Or.inr (by simp [h])
        · exact Or.inr (by simp [h])
      · exact le_of_lt (lt_of_lt_of_le hvb IH.2.1)
      · intro x hx
        rcases List.mem_cons.mp hx with rfl | hx
        · exact IH.2.1
        · exact IH.2.2.1 x hx
      · intro x hx hxr
        rcases hx with rfl | hx
        · exact lt_of_lt_of_le hvb IH.2.1
        · rcases List.mem_cons.mp hx with rfl | hx
          · exact IH.2.2.2 x (Or.inl rfl) hxr
          · exact IH.2.2.2 x (Or.inr hx) hxr
    · have hvj : v j ≤ v best := not_lt.mp hvb
      simp only [if_neg hvb] at IH
      refine ⟨?_, ?_, ?_, ?_⟩
      · rcases IH.1 with h | h
        · exact Or.inl h
        · exact Or.inr (by simp [h])
      · exact IH.2.1
      · intro x hx
        rcases List.mem_cons.mp hx with rfl | hx
        · exact le_trans hvj IH.2.1
        · exact IH.2.2.1 x hx
      · intro x hx hxr
        rcases hx with rfl | hx
        · exact IH.2.2.2 x (Or.inl rfl) hxr
        · rcases List.mem_cons.mp hx with rfl | hx
          · -- x = j, below the result: the result is strictly above `best`, hence above `j`
            have hbr : best < r := lt_trans hbj hxr
            exact lt_of_le_of_lt hvj (IH.2.2.2 best (Or.inl rfl) hbr)
          · exact IH.2.2.2 x (Or.inr hx) hxr

theorem argmaxFirst_bounds (v : ℕ → ℚ) (lo len : ℕ) (hlen : 0 < len) :
    lo ≤ argmaxFirst v lo len ∧ argmaxFirst v lo len < lo + len := by
  have h := argmaxFirstAux_spec v (List.range' (lo + 1) (len - 1)) lo
    (fun x hx => by
      have := (List.mem_range'_1.mp hx).1
      omega)
    (List.pairwise_lt_range' (lo + 1) (len - 1))
  unfold argmaxFirst
  rcases h.1 with heq | hmem
  · rw [heq]; omega
  · have := List.mem_range'_1.mp hmem
    omega

theorem argmaxFirst_is_max (v : ℕ → ℚ) (lo len j : ℕ) (h1 : lo ≤ j) (h2 : j < lo + len) :
    v j ≤ v (argmaxFirst v lo len) := by
  have h := argmaxFirstAux_spec v (List.range' (lo + 1) (len - 1)) lo
    (fun x hx => by
      have := (List.mem_range'_1.mp hx).1
      omega)
    (List.pairwise_lt_range' (lo + 1) (len - 1))
  unfold argmaxFirst
  by_cases hej : j = lo
  · subst hej
    exact h.2.1
  · exact h.2.2.1 j (List.mem_range'_1.mpr (by omega))

theorem argmaxFirst_first_tie (v : ℕ → ℚ) (lo len j : ℕ) (h1 : lo ≤ j)
    (h2 : j < argmaxFirst v lo len) (h3 : argmaxFirst v lo len < lo + len) :
    v j < v (argmaxFirst v lo len) := by
  have h := argmaxFirstAux_spec v (List.range' (lo + 1) (len - 1)) lo
    (fun x hx => by
      have := (List.mem_range'_1.mp hx).1
      omega)
    (List.pairwise_lt_range' (lo + 1) (len - 1))
  unfold argmaxFirst at h2 ⊢
  by_cases hej : j = lo
  · subst hej
    exact h.2.2.2 _ (Or.inl rfl) h2
  · refine h.2.2.2 j (Or.inr (List.mem_range'_1.mpr ?_)) h2
    constructor
    · omega
    · have hub : argmaxFirst v lo len ≤ lo + len - 1 := by
        unfold argmaxFirst at h3 ⊢
        omega
      unfold argmaxFirst at hub
      omega

/-!
### Sum and accessor lemmas
-/

theorem sum_map_div (l : List ℚ) (s : ℚ) : (l.map (fun x => x / s)).sum = l.sum / s := by
  induction l with
  | nil => simp
  | cons a l ih => simp [ih, add_div]

theorem headD_eq_getD (l : List α) (d : α) : l.headD d = l.getD 0 d := by
  cases l <;> simp

theorem getD_map (f : α → β) (l : List α) (i : ℕ) (d : α) (d' : β) (h : i < l.length) :
    (l.map f).getD i d' = f (l.getD i d) := by
  rw [List.getD_eq_getElem (l.map f) d' (by simpa using h), List.getElem_map,
    List.getD_eq_getElem l d h]

theorem getD_zipWith (f : α → β → γ) (l₁ : List α) (l₂ : List β) (i : ℕ)
    (d₁ : α) (d₂ : β) (d : γ) (h₁ : i < l₁.length) (h₂ : i < l₂.length) :
    (List.zipWith f l₁ l₂).getD i d = f (l₁.getD i d₁) (l₂.getD i d₂) := by
  rw [List.getD_eq_getElem _ d (by simp only [List.length_zipWith]; omega),
    List.getElem_zipWith, List.getD_eq_getElem l₁ d₁ h₁, List.getD_eq_getElem l₂ d₂ h₂]

theorem getD_range {n i : ℕ} (d : ℕ) (h : i < n) : (List.range n).getD i d = i := by
  rw [List.getD_eq_getElem _ d (by simpa using h), List.getElem_range]

theorem shape3_row {t : Tensor3} {b f c : ℕ} (h : Shape3 t b f c) {bi : ℕ} (hb : bi < b) :
    (t.getD bi []).length = f ∧ ∀ fr ∈ t.getD bi [], fr.length = c :=
  h.2 _ (getD_mem (h.1 ▸ hb))

theorem shape3_frame {t : Tensor3} {b f c : ℕ} (h : Shape3 t b f c) {bi fi : ℕ}
    (hb : bi < b) (hf : fi < f) : ((t.getD bi []).getD fi []).length = c :=
  (shape3_row h hb).2 _ (getD_mem ((shape3_row h hb).1 ▸ hf))

theorem channels3_eq {t : Tensor3} {b f c : ℕ} (h : Shape3 t b f c)
    (hb : 0 < b) (hf : 0 < f) : channels3 t = c := by
  have hfr := shape3_frame h hb hf
  unfold channels3
  rw [headD_eq_getD, headD_eq_getD]
  exact hfr

theorem at3_map3 (g : ℚ → ℚ) {t : Tensor3} {b f c bi fi ci : ℕ} (h : Shape3 t b f c)
    (hb : bi < b) (hf : fi < f) (hc : ci < c) :
    at3 (map3 g t) bi fi ci = g (at3 t bi fi ci) := by
  have h1 : bi < t.length := h.1 ▸ hb
  have h2 : fi < (t.getD bi []).length := (shape3_row h hb).1 ▸ hf
  have h3 : ci < ((t.getD bi []).getD fi []).length := shape3_frame h hb hf ▸ hc
  unfold at3 map3
  rw [getD_map _ t bi [] [] h1, getD_map _ _ fi [] [] h2, getD_map _ _ ci 0 0 h3]

theorem at3_zip3 (g : ℚ → ℚ → ℚ) {s t : Tensor3} {b f c bi fi ci : ℕ}
    (hs : Shape3 s b f c) (ht : Shape3 t b f c)
    (hb : bi < b) (hf : fi < f) (hc : ci < c) :
    at3 (zip3 g s t) bi fi ci = g (at3 s bi fi ci) (at3 t bi fi ci) := by
  have hs1 : bi < s.length := hs.1 ▸ hb
  have ht1 : bi < t.length := ht.1 ▸ hb
  have hs2 : fi < (s.getD bi []).length := (shape3_row hs hb).1 ▸ hf
  have ht2 : fi < (t.getD bi []).length := (shape3_row ht hb).1 ▸ hf
  have hs3 : ci < ((s.getD bi []).getD fi []).length := shape3_frame hs hb hf ▸ hc
  have ht3 : ci < ((t.getD bi []).getD fi []).length := shape3_frame ht hb hf ▸ hc
  unfold at3 zip3
  rw [getD_zipWith _ s t bi [] [] [] hs1 ht1,
    getD_zipWith _ _ _ fi [] [] [] hs2 ht2,
    getD_zipWith _ _ _ ci 0 0 0 hs3 ht3]

theorem at3_get_harmonic_frequencies {f0 : Tensor3} {b f c bi fi : ℕ} (k ci : ℕ)
    (h : Shape3 f0 b f c) (hb : bi < b) (hf : fi < f) (hk : ci < k) :
    at3 (get_harmonic_frequencies f0 k) bi fi ci = at3 f0 bi fi 0 * ((ci + 1 : ℕ) : ℚ) := by
  have h1 : bi < f0.length := h.1 ▸ hb
  have h2 : fi < (f0.getD bi []).length := (shape3_row h hb).1 ▸ hf
  unfold at3 get_harmonic_frequencies
  rw [getD_map _ f0 bi [] [] h1, getD_map _ _ fi [] [] h2,
    getD_map _ _ ci 0 0 (by simpa using hk), getD_range 0 hk, headD_eq_getD]

theorem at3_normalizeLast {t : Tensor3} {b f c bi fi ci : ℕ} (h : Shape3 t b f c)
    (hb : bi < b) (hf : fi < f) (hc : ci < c) :
    at3 (normalizeLast t) bi fi ci = at3 t bi fi ci / ((t.getD bi []).getD fi []).sum := by
  have h1 : bi < t.length := h.1 ▸ hb
  have h2 : fi < (t.getD bi []).length := (shape3_row h hb).1 ▸ hf
  have h3 : ci < ((t.getD bi []).getD fi []).length := shape3_frame h hb hf ▸ hc
  unfold at3 normalizeLast
  rw [getD_map _ t bi [] [] h1, getD_map _ _ fi [] [] h2, getD_map _ _ ci 0 0 h3]

theorem at2_lastAxisSums {t : Tensor3} {b f c bi fi : ℕ} (h : Shape3 t b f c)
    (hb : bi < b) (hf : fi < f) :
    at2 (lastAxisSums t) bi fi = ((t.getD bi []).getD fi []).sum := by
  have h1 : bi < t.length := h.1 ▸ hb
  have h2 : fi < (t.getD bi []).length := (shape3_row h hb).1 ▸ hf
  unfold at2 lastAxisSums
  rw [getD_map _ t bi [] [] h1, getD_map _ _ fi [] 0 h2]

/-!
### Control-dictionary lemmas
-/

theorem harmonic_ctl_hd (M : Harmonic) (a h f0 : Tensor3) :
    ctlGet (Harmonic.get_controls M a h f0) ("harmonic_distribution")
      = normalizeLast (if M.normalize_below_nyquist then
          remove_above_nyquist
            (get_harmonic_frequencies f0 (channels3 (applyScale M.scale_fn h)))
            (applyScale M.scale_fn h) M.sample_rate
        else applyScale M.scale_fn h) := rfl

theorem harmonic_ctl_amplitudes (M : Harmonic) (a h f0 : Tensor3) :
    ctlGet (Harmonic.get_controls M a h f0) ("amplitudes") = applyScale M.scale_fn a := rfl

theorem sinusoidal_ctl_amplitudes (M : Sinusoidal) (g : ℚ → ℚ)
    (hg : M.freq_scale_fn = some g) (a fq : Tensor3) :
    ctlGet (Sinusoidal.get_controls M a fq) ("amplitudes")
      = remove_above_nyquist (map3 g fq) (applyScale M.amp_scale_fn a) M.sample_rate := by
  unfold Sinusoidal.get_controls
  rw [hg]
  exact rfl

theorem sinusoidal_ctl_frequencies (M : Sinusoidal) (g : ℚ → ℚ)
    (hg : M.freq_scale_fn = some g) (a fq : Tensor3) :
    ctlGet (Sinusoidal.get_controls M a fq) ("frequencies") = map3 g fq := by
  unfold Sinusoidal.get_controls
  rw [hg]
  exact rfl

theorem impact_ctl_taus (M : Impact) (f : ℚ → ℚ) (hf : M.mag_scale_fn = some f)
    (noise mags stdevs taus tm : Tensor3) :
    ctlGet (Impact.get_controls M noise mags stdevs taus tm) ("taus")
      = List.zipWith (fun tb tmb => tb.map (List.map (fun x =>
          M.max_tau * f (2 * ((tmb.headD []).getD 0 0)) * f ((1/2) * x) + 1 / M.sample_rate)))
        taus tm := by
  unfold Impact.get_controls
  rw [hf]
  exact rfl

/-!
### Per-module output-shape lemmas
-/

theorem shape2_tensortoaudio_get_signal {M : TensorToAudio} {s : Tensor3} {b f c : ℕ}
    (h : Shape3 s b f c) : Shape2 (TensorToAudio.get_signal M s) b f := by
  refine ⟨by simp [TensorToAudio.get_signal, h.1], ?_⟩
  intro r hr
  simp only [TensorToAudio.get_signal, List.mem_map] at hr
  obtain ⟨r0, hr0, rfl⟩ := hr
  simp [(h.2 r0 hr0).1]

theorem shape2_harmonic_get_signal {M : Harmonic} {sinT : ℚ → ℚ} {a hd f0 : Tensor3}
    {b f c ca cf : ℕ} (hfr : 1 ≤ f) (ha : Shape3 a b f ca) (hh : Shape3 hd b f c)
    (hf0 : Shape3 f0 b f cf) : Shape2 (Harmonic.get_signal M sinT a hd f0) b M.n_samples := by
  unfold Harmonic.get_signal harmonic_synthesis
  exact shape2_oscillator_bank
    (shape3_resample hfr (shape3_get_harmonic_frequencies _ hf0) _ _)
    (shape3_resample hfr (shape3_mulBroadcastAmp hh ha) _ _)

theorem shape2_filterednoise_get_signal {M : FilteredNoise} {ir : List ℚ → List ℚ}
    {noise : Tensor2} {mags : Tensor3} {b f c : ℕ}
    (hn : Shape2 noise b M.n_samples) (hm : Shape3 mags b f c) :
    Shape2 (FilteredNoise.get_signal M ir noise mags) b M.n_samples := by
  unfold FilteredNoise.get_signal frequency_filter
  refine ⟨by simp [List.length_zipWith, hn.1, hm.1], ?_⟩
  intro r hr
  obtain ⟨sig, hsig, mb, _, rfl⟩ := mem_zipWith hr
  simp [hn.2 sig hsig]

theorem shape2_wavetable_get_signal {M : Wavetable} {a w f0 : Tensor3} {b f ca cw cf : ℕ}
    (hf : 1 ≤ f) (ha : Shape3 a b f ca) (hw : Shape3 w b f cw) (hf0 : Shape3 f0 b f cf) :
    Shape2 (Wavetable.get_signal M a w f0) b M.n_samples := by
  unfold Wavetable.get_signal wavetable_synthesis
  refine ⟨?_, ?_⟩
  · rw [length_zip3With]
    rw [(shape3_resample hf ha M.n_samples ("window")).1,
      (shape3_resample hf hw M.n_samples ("linear")).1,
      (shape3_resample hf hf0 M.n_samples ("linear")).1]
    simp
  · intro r hr
    obtain ⟨ab, _, wb, _, fb, _, rfl⟩ := mem_zip3With hr
    simp

theorem shape2_sinusoidal_get_signal {M : Sinusoidal} {sinT : ℚ → ℚ} {a fq : Tensor3}
    {b f ca cf : ℕ} (hf : 1 ≤ f) (ha : Shape3 a b f ca) (hfq : Shape3 fq b f cf) :
    Shape2 (Sinusoidal.get_signal M sinT a fq) b M.n_samples := by
  unfold Sinusoidal.get_signal
  exact shape2_oscillator_bank (shape3_resample hf hfq _ _) (shape3_resample hf ha _ _)

theorem shape2_impact_get_signal {M : Impact} {expf : ℚ → ℚ} {mags stdevs taus : Tensor3}
    {b f cm ct : ℕ} (hf : 1 ≤ f) (hm : Shape3 mags b f cm) (ht : Shape3 taus b f ct) :
    Shape2 (Impact.get_signal M expf mags stdevs taus) b M.n_samples := by
  unfold Impact.get_signal
  refine ⟨?_, ?_⟩
  · simp only [List.length_zipWith]
    rw [(shape3_resample hf hm M.n_samples M.resample_method).1,
      (shape3_resample hf ht M.n_samples M.resample_method).1]
    simp
  · intro r hr
    obtain ⟨mb, _, tb, _, rfl⟩ := mem_zipWith hr
    simp

theorem shape3_modal_amp_env {M : ModalFIR} {expf : ℚ → ℚ} {g d : Tensor3} {b c : ℕ}
    (hg : Shape3 g b 1 c) (hd : Shape3 d b 1 c) :
    Shape3 (ModalFIR.amplitude_envelopes M expf g d) b M.n_samples c := by
  refine ⟨by simp [ModalFIR.amplitude_envelopes, List.length_zipWith, hg.1, hd.1], ?_⟩
  intro r hr
  unfold ModalFIR.amplitude_envelopes at hr
  obtain ⟨gb, hgb, db, hdb, rfl⟩ := mem_zipWith hr
  refine ⟨by simp, ?_⟩
  intro fr hfr
  simp only [List.mem_map, List.mem_range] at hfr
  obtain ⟨n, hn, rfl⟩ := hfr
  have h1 : (gb.headD []).length = c := by
    rw [headD_eq_getD]
    exact (hg.2 gb hgb).2 _ (getD_mem (by rw [(hg.2 gb hgb).1]; omega))
  have h2 : (db.headD []).length = c := by
    rw [headD_eq_getD]
    exact (hd.2 db hdb).2 _ (getD_mem (by rw [(hd.2 db hdb).1]; omega))
  simp only [List.length_zipWith]
  rw [h1, h2]
  simp

theorem shape3_modal_freq_env {fq ae : Tensor3} {b n c : ℕ}
    (hf : Shape3 fq b 1 c) (ha : Shape3 ae b n c) :
    Shape3 (ModalFIR.frequency_envelopes fq ae) b n c := by
  refine ⟨by simp [ModalFIR.frequency_envelopes, List.length_zipWith, hf.1, ha.1], ?_⟩
  intro r hr
  unfold ModalFIR.frequency_envelopes at hr
  obtain ⟨fb, hfb, ab, hab, rfl⟩ := mem_zipWith hr
  refine ⟨by simp [(ha.2 ab hab).1], ?_⟩
  intro fr hfr
  simp only [List.mem_map] at hfr
  obtain ⟨afr, hafr, rfl⟩ := hfr
  have h1 : (fb.headD []).length = c := by
    rw [headD_eq_getD]
    exact (hf.2 fb hfb).2 _ (getD_mem (by rw [(hf.2 fb hfb).1]; omega))
  simp only [List.length_zipWith]
  rw [h1, (ha.2 ab hab).2 afr hafr]
  simp

theorem shape2_modal_get_signal {M : ModalFIR} {expf sinT : ℚ → ℚ} {g fq d : Tensor3}
    {b c : ℕ} (hg : Shape3 g b 1 c) (hf : Shape3 fq b 1 c) (hd : Shape3 d b 1 c) :
    Shape2 (ModalFIR.get_signal M expf sinT g fq d) b (2 * M.n_samples) := by
  unfold ModalFIR.get_signal
  have hae := @shape3_modal_amp_env M expf g d b c hg hd
  have hir : Shape2 (oscillator_bank
      (ModalFIR.frequency_envelopes fq (ModalFIR.amplitude_envelopes M expf g d))
      (ModalFIR.amplitude_envelopes M expf g d) M.sample_rate sinT) b M.n_samples :=
    shape2_oscillator_bank (shape3_modal_freq_env hf hae) hae
  refine ⟨by simpa using hir.1, ?_⟩
  intro r hr
  simp only [List.mem_map] at hr
  obtain ⟨r0, hr0, rfl⟩ := hr
  have := hir.2 r0 hr0
  simp only [List.length_append, List.length_map, this]
  omega

/-!
### Further helper lemmas
-/

theorem tensor3_ext {s t : Tensor3} {b f c : ℕ} (hs : Shape3 s b f c) (ht : Shape3 t b f c)
    (h : ∀ bi fi ci, bi < b → fi < f → ci < c → at3 s bi fi ci = at3 t bi fi ci) : s = t := by
  apply List.ext_getElem (by rw [hs.1, ht.1])
  intro bi h1 h2
  have hbb : bi < b := by rw [← hs.1]; exact h1
  have hrs := hs.2 _ (List.getElem_mem h1)
  have hrt := ht.2 _ (List.getElem_mem h2)
  apply List.ext_getElem (by rw [hrs.1, hrt.1])
  intro fi hf1 hf2
  have hff : fi < f := by rw [← hrs.1]; exact hf1
  have hfs := hrs.2 _ (List.getElem_mem hf1)
  have hft := hrt.2 _ (List.getElem_mem hf2)
  apply List.ext_getElem (by rw [hfs, hft])
  intro ci hc1 hc2
  have hcc : ci < c := by rw [← hfs]; exact hc1
  have he := h bi fi ci hbb hff hcc
  unfold at3 at he
  rw [List.getD_eq_getElem s [] h1, List.getD_eq_getElem t [] h2,
    List.getD_eq_getElem _ [] hf1, List.getD_eq_getElem _ [] hf2,
    List.getD_eq_getElem _ 0 hc1, List.getD_eq_getElem _ 0 hc2] at he
  exact he

theorem all3_at3 {p : ℚ → Prop} {t : Tensor3} {b f c bi fi ci : ℕ} (h : Shape3 t b f c)
    (hp : all3 p t) (hb : bi < b) (hf : fi < f) (hc : ci < c) : p (at3 t bi fi ci) := by
  have h1 : bi < t.length := h.1 ▸ hb
  have h2 : fi < (t.getD bi []).length := (shape3_row h hb).1 ▸ hf
  have h3 : ci < ((t.getD bi []).getD fi []).length := shape3_frame h hb hf ▸ hc
  exact hp _ (getD_mem h1) _ (getD_mem h2) _ (getD_mem h3)

theorem normalizeLast_frame {t : Tensor3} {b f c bi fi : ℕ} (h : Shape3 t b f c)
    (hb : bi < b) (hf : fi < f) :
    ((normalizeLast t).getD bi []).getD fi []
      = ((t.getD bi []).getD fi []).map (fun x => x / ((t.getD bi []).getD fi []).sum) := by
  have h1 : bi < t.length := h.1 ▸ hb
  have h2 : fi < (t.getD bi []).length := (shape3_row h hb).1 ▸ hf
  unfold normalizeLast
  rw [getD_map _ t bi [] [] h1, getD_map _ _ fi [] [] h2]

theorem exp_sigmoid_pos (x : ℚ) : 0 < exp_sigmoid x := by
  unfold exp_sigmoid
  have h1 : 0 < 2 * (1 + |x|) := by positivity
  have h2 : -(1/2) < x / (2 * (1 + |x|)) := by
    rw [lt_div_iff₀ h1]
    nlinarith [neg_abs_le x]
  linarith

theorem ceilDiv_eq {N ws : ℕ} (hws : 0 < ws) (hdvd : ws ∣ N) :
    (N + ws - 1) / ws = N / ws := by
  obtain ⟨q, rfl⟩ := hdvd
  rw [Nat.mul_div_cancel_left q hws]
  have he : ws * q + ws - 1 = (ws - 1) + ws * q := by omega
  rw [he, Nat.add_mul_div_left _ _ hws, Nat.div_eq_of_lt (by omega)]
  omega

/-!
### Claim theorems
-/

/-- Claim C8: constructing `MfccTimeDistributedRnnEncoder` raises a `ValueError` if and only if
`mfcc_time_steps` is not one of 63, 125, 250, 500, 1000; the check runs inside `__init__`, i.e.
at construction time (modelled by `init_config` returning `Except.error`), before any call. -/
theorem c8_mfcc_time_steps_validation (m : ℤ) :
    (∃ e, MfccTimeDistributedRnnEncoder.init_config m = Except.error e)
      ↔ m ∉ ([63, 125, 250, 500, 1000] : List ℤ) := by
  unfold MfccTimeDistributedRnnEncoder.init_config
  by_cases h : m ∈ ([63, 125, 250, 500, 1000] : List ℤ)
  · simp [h]
  · simp [h]

/-- Claim C9: for every synthesizer module the key set (indeed the key list) of the dictionary
returned by `get_controls` equals exactly the parameter list of that module's `get_signal`; in
particular `Impact.get_controls` consumes the extra `tau_multiplier` input but returns only
`magnitudes`, `stdevs`, `taus`. -/
theorem c9_control_keys_match_signal_params :
    (∀ (M : TensorToAudio) (samples : Tensor3),
      controlKeys (TensorToAudio.get_controls M samples) = TensorToAudio.signal_params)
  ∧ (∀ (M : Harmonic) (a h f0 : Tensor3),
      controlKeys (Harmonic.get_controls M a h f0) = Harmonic.signal_params)
  ∧ (∀ (M : FilteredNoise) (mags : Tensor3),
      controlKeys (FilteredNoise.get_controls M mags) = FilteredNoise.signal_params)
  ∧ (∀ (M : Wavetable) (a w f0 : Tensor3),
      controlKeys (Wavetable.get_controls M a w f0) = Wavetable.signal_params)
  ∧ (∀ (M : Sinusoidal) (a fq : Tensor3),
      controlKeys (Sinusoidal.get_controls M a fq) = Sinusoidal.signal_params)
  ∧ (∀ (M : Impact) (noise mags stdevs taus tm : Tensor3),
      controlKeys (Impact.get_controls M noise mags stdevs taus tm) = Impact.signal_params)
  ∧ (∀ (M : ModalFIR) (g fq d : Tensor3),
      controlKeys (ModalFIR.get_controls M g fq d) = ModalFIR.signal_params) := by
  refine ⟨fun M s => rfl, fun M a h f0 => rfl, fun M m => rfl, fun M a w f0 => rfl,
    fun M a fq => ?_, fun M n m s t tm => ?_, fun M g fq d => ?_⟩
  · cases h : M.freq_scale_fn <;>
      simp [Sinusoidal.get_controls, h, controlKeys, Sinusoidal.signal_params]
  · cases h : M.mag_scale_fn <;>
      simp [Impact.get_controls, h, controlKeys, Impact.signal_params]
  · cases h1 : M.amp_scale_fn <;> cases h2 : M.freq_scale_fn <;>
      simp [ModalFIR.get_controls, h1, h2, controlKeys, ModalFIR.signal_params]

theorem at3_remove_above_nyquist {fq a : Tensor3} {b f c bi fi ci : ℕ} (sr : ℚ)
    (hfq : Shape3 fq b f c) (ha : Shape3 a b f c)
    (hb : bi < b) (hf : fi < f) (hc : ci < c) :
    at3 (remove_above_nyquist fq a sr) bi fi ci
      = if at3 fq bi fi ci < sr / 2 then at3 a bi fi ci else 0 :=
  at3_zip3 _ hfq ha hb hf hc

theorem zip3_zero_left {s z z' : Tensor3} {b f c : ℕ}
    (hs : Shape3 s b f c) (hz : Shape3 z b f c) (hz' : Shape3 z' b f c)
    (h0 : all3 (· = 0) s) :
    zip3 (fun a q => |a| * q) s z = zip3 (fun a q => |a| * q) s z' := by
  apply tensor3_ext (shape3_zip3 _ hs hz) (shape3_zip3 _ hs hz')
  intro bi fi ci hb hf hc
  rw [at3_zip3 _ hs hz hb hf hc, at3_zip3 _ hs hz' hb hf hc]
  rw [all3_at3 hs h0 hb hf hc]
  simp

theorem impact_get_controls_some (M : Impact) (f : ℚ → ℚ) (hf : M.mag_scale_fn = some f)
    (noise magnitudes stdevs taus tau_multiplier : Tensor3) :
    Impact.get_controls M noise magnitudes stdevs taus tau_multiplier
      = [("magnitudes", zip3 (fun m nz => f (m + nz)) magnitudes
            (zip3 (fun s z => |s| * z) stdevs noise)),
         ("stdevs", stdevs),
         ("taus", List.zipWith (fun tb tmb => tb.map (List.map (fun x =>
            M.max_tau * f (2 * ((tmb.headD []).getD 0 0)) * f ((1/2) * x)
              + 1 / M.sample_rate))) taus tau_multiplier)] := by
  unfold Impact.get_controls
  rw [hf]

/-- Claim C4 (the code violates it): with the default configuration
(`scale_fn = exp_sigmoid`, `normalize_below_nyquist = True`, sample rate 16000) and
`f0_hz = 8000` — the Nyquist frequency — every harmonic frequency `8000·(k+1)` is at or above
Nyquist, so the mask zeroes the whole distribution, the per-frame sum computed at synths.py
line 103 is `0`, and `harmonic_distribution /= 0` divides by zero (NaN in TensorFlow; in the
rational model `x / 0 = 0`, so the returned frame is all zeros).  The analogous encoder path
(`SinusoidalToHarmonicEncoder.call`, encoders.py lines 400–401) guards the very same division
with `safe_divide`; `Harmonic.get_controls` does not. -/
theorem c4_harmonic_normalization_divides_by_zero :
    lastAxisSums (remove_above_nyquist
        (get_harmonic_frequencies [[[8000]]] 2)
        (map3 exp_sigmoid [[[0, 0]]]) 16000) = [[0]]
    ∧ ctlGet (Harmonic.get_controls (Harmonic.mk 64000 16000 (some exp_sigmoid) true)
        [[[0]]] [[[0, 0]]] [[[8000]]]) ("harmonic_distribution") = [[[0, 0]]] := by
  constructor
  · norm_num [lastAxisSums, remove_above_nyquist, get_harmonic_frequencies, map3, zip3,
      exp_sigmoid, List.range_succ]
  · rw [harmonic_ctl_hd]
    norm_num [applyScale, map3, channels3, normalizeLast, remove_above_nyquist, zip3,
      get_harmonic_frequencies, exp_sigmoid, List.range_succ]

/-- Claim C2 counterexample: with the default configuration and `f0_hz = 8000 =` Nyquist, the
harmonic distribution returned by `Harmonic.get_controls` sums to `0` along the last axis
(NaN in TensorFlow), not to `1 ± 10⁻⁵`: the claim fails for this input. -/
theorem c2_counterexample_f0_at_nyquist :
    ¬ (|at2 (lastAxisSums (ctlGet (Harmonic.get_controls
        (Harmonic.mk 64000 16000 (some exp_sigmoid) true) [[[0]]] [[[0, 0]]] [[[8000]]])
        ("harmonic_distribution"))) 0 0 - 1| ≤ 1/100000) := by
  rw [harmonic_ctl_hd]
  norm_num [applyScale, map3, channels3, normalizeLast, remove_above_nyquist, zip3,
    get_harmonic_frequencies, exp_sigmoid, List.range_succ, at2, lastAxisSums]

/-- Claim C2 (amended): the harmonic distribution returned by `Harmonic.get_controls` sums to
exactly 1 along the last axis (hence within any tolerance) for every batch element and frame,
provided the configured scale function is strictly positive — as the default `exp_sigmoid`
is — and the frame's fundamental frequency lies strictly between 0 and Nyquist, so that at
least the first harmonic survives the band-limiting mask; when the fundamental is at or above
Nyquist every component is masked and the normalization divides by zero instead of summing
to 1 (see the counterexample). -/
theorem c2_harmonic_distribution_sums_to_one (M : Harmonic) (f : ℚ → ℚ)
    (amplitudes harmonic_distribution f0_hz : Tensor3) (b fr c bi fi : ℕ)
    (hscale : M.scale_fn = some f) (hpos : ∀ x, 0 < f x)
    (hhd : Shape3 harmonic_distribution b fr c) (hf0 : Shape3 f0_hz b fr 1)
    (hc : 1 ≤ c) (hb : bi < b) (hfi : fi < fr)
    (_hlow : 0 < at3 f0_hz bi fi 0) (hhigh : at3 f0_hz bi fi 0 < M.sample_rate / 2) :
    at2 (lastAxisSums (ctlGet
      (Harmonic.get_controls M amplitudes harmonic_distribution f0_hz)
      ("harmonic_distribution"))) bi fi = 1 := by
  rw [harmonic_ctl_hd, hscale]
  simp only [applyScale]
  have hS : Shape3 (map3 f harmonic_distribution) b fr c := shape3_map3 f hhd
  by_cases hn : M.normalize_below_nyquist = true
  · rw [if_pos hn]
    have hch : channels3 (map3 f harmonic_distribution) = c :=
      channels3_eq hS (by omega) (by omega)
    rw [hch]
    have hfreq : Shape3 (get_harmonic_frequencies f0_hz c) b fr c :=
      shape3_get_harmonic_frequencies c hf0
    have hmasked : Shape3 (remove_above_nyquist (get_harmonic_frequencies f0_hz c)
        (map3 f harmonic_distribution) M.sample_rate) b fr c :=
      shape3_remove_above_nyquist hfreq hS
    rw [at2_lastAxisSums (shape3_normalizeLast hmasked) hb hfi,
      normalizeLast_frame hmasked hb hfi, sum_map_div]
    apply div_self
    have hlen : (((remove_above_nyquist (get_harmonic_frequencies f0_hz c)
        (map3 f harmonic_distribution) M.sample_rate).getD bi []).getD fi []).length = c :=
      shape3_frame hmasked hb hfi
    have hentry : ∀ ci, ci < c →
        (((remove_above_nyquist (get_harmonic_frequencies f0_hz c)
          (map3 f harmonic_distribution) M.sample_rate).getD bi []).getD fi []).getD ci 0
        = if at3 f0_hz bi fi 0 * ((ci + 1 : ℕ) : ℚ) < M.sample_rate / 2
            then f (at3 harmonic_distribution bi fi ci) else 0 := by
      intro ci hci
      have h1 := at3_remove_above_nyquist M.sample_rate hfreq hS hb hfi hci
      unfold at3 at h1
      rw [h1]
      have h2 := at3_get_harmonic_frequencies c ci hf0 hb hfi hci
      unfold at3 at h2
      rw [h2]
      have h3 := at3_map3 f hhd hb hfi hci
      unfold at3 at h3
      rw [h3]
      rfl
    have hnn : ∀ x ∈ ((remove_above_nyquist (get_harmonic_frequencies f0_hz c)
        (map3 f harmonic_distribution) M.sample_rate).getD bi []).getD fi [], 0 ≤ x := by
      intro x hx
      obtain ⟨ci, hci, rfl⟩ := List.mem_iff_getElem.mp hx
      rw [← List.getD_eq_getElem _ 0 hci]
      rw [hentry ci (by omega)]
      split
      · exact le_of_lt (hpos _)
      · exact le_rfl
    have h0pos : 0 < (((remove_above_nyquist (get_harmonic_frequencies f0_hz c)
        (map3 f harmonic_distribution) M.sample_rate).getD bi []).getD fi []).getD 0 0 := by
      rw [hentry 0 (by omega)]
      have : at3 f0_hz bi fi 0 * ((0 + 1 : ℕ) : ℚ) < M.sample_rate / 2 := by
        push_cast
        rw [mul_one]
        exact hhigh
      rw [if_pos this]
      exact hpos _
    have hmem : (((remove_above_nyquist (get_harmonic_frequencies f0_hz c)
        (map3 f harmonic_distribution) M.sample_rate).getD bi []).getD fi []).getD 0 0
        ∈ ((remove_above_nyquist (get_harmonic_frequencies f0_hz c)
            (map3 f harmonic_distribution) M.sample_rate).getD bi []).getD fi [] :=
      getD_mem (by omega)
    have := List.single_le_sum hnn _ hmem
    exact ne_of_gt (lt_of_lt_of_le h0pos this)
  · rw [if_neg hn]
    rw [at2_lastAxisSums (shape3_normalizeLast hS) hb hfi,
      normalizeLast_frame hS hb hfi, sum_map_div]
    apply div_self
    have hlen : (((map3 f harmonic_distribution).getD bi []).getD fi []).length = c :=
      shape3_frame hS hb hfi
    have hentry : ∀ ci, ci < c →
        (((map3 f harmonic_distribution).getD bi []).getD fi []).getD ci 0
          = f (at3 harmonic_distribution bi fi ci) := by
      intro ci hci
      have h3 := at3_map3 f hhd hb hfi hci
      unfold at3 at h3
      rw [h3]
      rfl
    have hnn : ∀ x ∈ ((map3 f harmonic_distribution).getD bi []).getD fi [], 0 ≤ x := by
      intro x hx
      obtain ⟨ci, hci, rfl⟩ := List.mem_iff_getElem.mp hx
      rw [← List.getD_eq_getElem _ 0 hci, hentry ci (by omega)]
      exact le_of_lt (hpos _)
    have h0pos : 0 < (((map3 f harmonic_distribution).getD bi []).getD fi []).getD 0 0 := by
      rw [hentry 0 (by omega)]
      exact hpos _
    have hmem : (((map3 f harmonic_distribution).getD bi []).getD fi []).getD 0 0
        ∈ ((map3 f harmonic_distribution).getD bi []).getD fi [] := getD_mem (by omega)
    exact ne_of_gt (lt_of_lt_of_le h0pos (List.single_le_sum hnn _ hmem))

/-- Witness for C2 (amended) at a concrete below-Nyquist input. -/
theorem c2_witness :
    at2 (lastAxisSums (ctlGet (Harmonic.get_controls
      (Harmonic.mk 4 16000 (some exp_sigmoid) true) [[[0]]] [[[0, 0]]] [[[440]]])
      ("harmonic_distribution"))) 0 0 = 1 :=
  c2_harmonic_distribution_sums_to_one _ exp_sigmoid _ _ _ 1 1 2 0 0 rfl exp_sigmoid_pos
    (by decide) (by decide) (by decide) (by decide) (by decide) (by decide) (by norm_num [at3])

/-- Claim C3 counterexample: `Impact.get_controls` is not a deterministic function of its
explicit inputs and configuration — synths.py line 350 draws fresh Gaussian noise each call
(modelled as the explicit `noise` argument), and two invocations whose draws differ return
different magnitudes for identical input tensors. -/
theorem c3_counterexample_impact_noise_dependence :
    Impact.get_controls (⟨4, 16000, some exp_sigmoid, "window", 1/1000, 2⟩ : Impact)
        [[[0]]] [[[0]]] [[[1]]] [[[0]]] [[[0]]]
      ≠ Impact.get_controls (⟨4, 16000, some exp_sigmoid, "window", 1/1000, 2⟩ : Impact)
        [[[1]]] [[[0]]] [[[1]]] [[[0]]] [[[0]]] := by
  norm_num [Impact.get_controls, zip3, exp_sigmoid]

/-- Claim C3 (amended): every `get_controls`/`get_signal` is a deterministic function of its
explicit inputs, its configuration, and — for `FilteredNoise.get_signal` and
`Impact.get_controls` only — an explicit fresh random draw (modelled as the `noise` argument;
all other methods of the embedding take no random input at all).  `Impact.get_controls` is
independent of its draw whenever the `stdevs` tensor is identically zero, since the
perturbation is the noise scaled by `|stdevs|`. -/
theorem c3_determinism_modulo_noise (M : Impact) (f : ℚ → ℚ)
    (noise noise' magnitudes stdevs taus tau_multiplier : Tensor3) (b fr : ℕ)
    (hf : M.mag_scale_fn = some f)
    (hstdev : Shape3 stdevs b fr 1) (h0 : all3 (· = 0) stdevs)
    (hn : Shape3 noise b fr 1) (hn' : Shape3 noise' b fr 1) :
    Impact.get_controls M noise magnitudes stdevs taus tau_multiplier
      = Impact.get_controls M noise' magnitudes stdevs taus tau_multiplier := by
  rw [impact_get_controls_some M f hf, impact_get_controls_some M f hf,
    zip3_zero_left hstdev hn hn' h0]

/-- Witness for C3 (amended): with zero stdevs, two different draws give identical controls. -/
theorem c3_witness :
    Impact.get_controls (⟨4, 16000, some exp_sigmoid, "window", 1/1000, 2⟩ : Impact)
        [[[5]]] [[[0]]] [[[0]]] [[[0]]] [[[0]]]
      = Impact.get_controls (⟨4, 16000, some exp_sigmoid, "window", 1/1000, 2⟩ : Impact)
        [[[7]]] [[[0]]] [[[0]]] [[[0]]] [[[0]]] :=
  c3_determinism_modulo_noise _ exp_sigmoid _ _ _ _ _ _ 1 1 rfl (by decide) (by decide)
    (by decide) (by decide)

/-- Claim C10: when `Impact` is configured with a non-None, nonnegative-valued `mag_scale_fn`
(as the default `exp_sigmoid` is), a nonnegative `max_tau` (default 0.001) and a positive
sample rate, every element of the `taus` tensor returned by `Impact.get_controls` is at least
`1/sample_rate` and strictly positive, and its square — the denominator
`tf.square(tau)` inside `Impact.hertz_gaussian` — is nonzero, so that division never divides
by zero. -/
theorem c10_impact_taus_positive (M : Impact) (f : ℚ → ℚ) (hf : M.mag_scale_fn = some f)
    (hpos : ∀ x, 0 ≤ f x) (htau : 0 ≤ M.max_tau) (hsr : 0 < M.sample_rate)
    (noise magnitudes stdevs taus tau_multiplier : Tensor3) :
    all3 (fun q => 1 / M.sample_rate ≤ q ∧ 0 < q ∧ q ^ 2 ≠ 0)
      (ctlGet (Impact.get_controls M noise magnitudes stdevs taus tau_multiplier)
        ("taus")) := by
  rw [impact_ctl_taus M f hf]
  intro r hr fr hfr x hx
  obtain ⟨tb, _, tmb, _, rfl⟩ := mem_zipWith hr
  simp only [List.mem_map] at hfr
  obtain ⟨fr0, _, rfl⟩ := hfr
  simp only [List.mem_map] at hx
  obtain ⟨x0, _, rfl⟩ := hx
  have h1 : 0 ≤ M.max_tau * f (2 * ((tmb.headD []).getD 0 0)) * f ((1/2) * x0) :=
    mul_nonneg (mul_nonneg htau (hpos _)) (hpos _)
  have h2 : 0 < 1 / M.sample_rate := by positivity
  refine ⟨by linarith, by linarith, ?_⟩
  exact pow_ne_zero 2 (ne_of_gt (by linarith))

/-- Witness for C10 at the default-style configuration. -/
theorem c10_witness :
    all3 (fun q => 1 / (16000 : ℚ) ≤ q ∧ 0 < q ∧ q ^ 2 ≠ 0)
      (ctlGet (Impact.get_controls
        (⟨4, 16000, some exp_sigmoid, "window", 1/1000, 30⟩ : Impact)
        [[[0]]] [[[0]]] [[[1]]] [[[0]]] [[[0]]]) ("taus")) :=
  c10_impact_taus_positive _ exp_sigmoid rfl (fun x => le_of_lt (exp_sigmoid_pos x))
    (by norm_num) (by norm_num) _ _ _ _ _

/-- Claim C5: whenever band-limiting is requested, `get_controls` applies the hard Nyquist mask
before returning.  (1) The mask primitive is elementwise: every component whose co-indexed
frequency is at or above `sample_rate/2` is zeroed and every component below is left unchanged.
(2) `Sinusoidal.get_controls` with a configured `freq_scale_fn` returns as its amplitudes
exactly the mask applied to the scaled amplitudes (so below-Nyquist amplitudes are returned
unchanged).  (3) `Harmonic.get_controls` with `normalize_below_nyquist = True` returns the
normalization of the masked distribution, and (4) every at-or-above-Nyquist component of the
returned harmonic distribution is zero. -/
theorem c5_nyquist_masking :
    (∀ (freqs amps : Tensor3) (sr : ℚ) (b f c bi fi ci : ℕ),
      Shape3 freqs b f c → Shape3 amps b f c → bi < b → fi < f → ci < c →
      at3 (remove_above_nyquist freqs amps sr) bi fi ci
        = if at3 freqs bi fi ci < sr / 2 then at3 amps bi fi ci else 0)
  ∧ (∀ (M : Sinusoidal) (g : ℚ → ℚ), M.freq_scale_fn = some g → ∀ (a fq : Tensor3),
      ctlGet (Sinusoidal.get_controls M a fq) ("amplitudes")
        = remove_above_nyquist (map3 g fq) (applyScale M.amp_scale_fn a) M.sample_rate)
  ∧ (∀ (M : Harmonic), M.normalize_below_nyquist = true → ∀ (a h f0 : Tensor3),
      ctlGet (Harmonic.get_controls M a h f0) ("harmonic_distribution")
        = normalizeLast (remove_above_nyquist
            (get_harmonic_frequencies f0 (channels3 (applyScale M.scale_fn h)))
            (applyScale M.scale_fn h) M.sample_rate))
  ∧ (∀ (M : Harmonic) (a h f0 : Tensor3) (b f c bi fi ci : ℕ),
      M.normalize_below_nyquist = true →
      Shape3 h b f c → Shape3 f0 b f 1 → bi < b → fi < f → ci < c →
      M.sample_rate / 2 ≤ at3 f0 bi fi 0 * ((ci + 1 : ℕ) : ℚ) →
      at3 (ctlGet (Harmonic.get_controls M a h f0) ("harmonic_distribution")) bi fi ci
        = 0) := by
  refine ⟨?_, ?_, ?_, ?_⟩
  · intro freqs amps sr b f c bi fi ci hfq ha hb hf hc
    exact at3_remove_above_nyquist sr hfq ha hb hf hc
  · intro M g hg a fq
    exact sinusoidal_ctl_amplitudes M g hg a fq
  · intro M hn a h f0
    rw [harmonic_ctl_hd, if_pos hn]
  · intro M a h f0 b f c bi fi ci hn hh hf0 hb hfi hci hnyq
    rw [harmonic_ctl_hd, if_pos hn]
    have hS : Shape3 (applyScale M.scale_fn h) b f c := shape3_applyScale _ hh
    have hch : channels3 (applyScale M.scale_fn h) = c := channels3_eq hS (by omega) (by omega)
    rw [hch]
    have hmasked : Shape3 (remove_above_nyquist (get_harmonic_frequencies f0 c)
        (applyScale M.scale_fn h) M.sample_rate) b f c :=
      shape3_remove_above_nyquist (shape3_get_harmonic_frequencies c hf0) hS
    rw [at3_normalizeLast hmasked hb hfi hci,
      at3_remove_above_nyquist M.sample_rate (shape3_get_harmonic_frequencies c hf0) hS
        hb hfi hci,
      at3_get_harmonic_frequencies c ci hf0 hb hfi hci,
      if_neg (not_lt.mpr hnyq)]
    exact zero_div _

/-- Witness for C5 at concrete inputs: a 9000 Hz component is zeroed at sample rate 16000;
the Sinusoidal and Harmonic control dictionaries factor through the mask; the second harmonic
of an 8000 Hz fundamental is zeroed in the returned distribution. -/
theorem c5_witness :
    at3 (remove_above_nyquist [[[9000]]] [[[5]]] 16000) 0 0 0 = 0
  ∧ ctlGet (Sinusoidal.get_controls
        (⟨4, 16000, none, "window", some (fun x => x)⟩ : Sinusoidal) [[[1]]] [[[3]]])
        ("amplitudes")
      = remove_above_nyquist (map3 (fun x => x) [[[3]]]) (applyScale none [[[1]]]) 16000
  ∧ ctlGet (Harmonic.get_controls (⟨4, 16000, none, true⟩ : Harmonic)
        [[[1]]] [[[2, 3]]] [[[100]]]) ("harmonic_distribution")
      = normalizeLast (remove_above_nyquist
          (get_harmonic_frequencies [[[100]]] (channels3 (applyScale none [[[2, 3]]])))
          (applyScale none [[[2, 3]]]) 16000)
  ∧ at3 (ctlGet (Harmonic.get_controls (⟨4, 16000, none, true⟩ : Harmonic)
        [[[1]]] [[[2, 3]]] [[[8000]]]) ("harmonic_distribution")) 0 0 0 = 0 := by
  refine ⟨?_, ?_, ?_, ?_⟩
  · rw [c5_nyquist_masking.1 [[[9000]]] [[[5]]] 16000 1 1 1 0 0 0 (by decide) (by decide)
      (by decide) (by decide) (by decide)]
    norm_num [at3]
  · exact c5_nyquist_masking.2.1 _ (fun x => x) rfl [[[1]]] [[[3]]]
  · exact c5_nyquist_masking.2.2.1 _ rfl [[[1]]] [[[2, 3]]] [[[100]]]
  · exact c5_nyquist_masking.2.2.2 _ [[[1]]] [[[2, 3]]] [[[8000]]] 1 1 2 0 0 0 rfl
      (by decide) (by decide) (by decide) (by decide) (by decide) (by norm_num [at3])

/-- Claim C1 (amended): for every valid control input of shape `[batch, frames, channels]`,
`get_signal` returns `[batch, n_samples]` for Harmonic, FilteredNoise, Wavetable, Sinusoidal
and Impact, regardless of the input frame count; `ModalFIR.get_signal` instead returns
`[batch, 2·n_samples]` (it concatenates a zero block of the oscillator output's own length in
front of it), and `TensorToAudio`, which has no `n_samples` configuration, returns
`[batch, time]` with `time` equal to the input frame count.  (ModalFIR's single-frame shape
hypothesis reflects the broadcasting requirement of synths.py line 459.) -/
theorem c1_get_signal_shapes :
    (∀ (M : TensorToAudio) (samples : Tensor3) (b f c : ℕ),
      Shape3 samples b f c → Shape2 (TensorToAudio.get_signal M samples) b f)
  ∧ (∀ (M : Harmonic) (sinT : ℚ → ℚ) (a h f0 : Tensor3) (b f c ca cf : ℕ), 1 ≤ f →
      Shape3 a b f ca → Shape3 h b f c → Shape3 f0 b f cf →
      Shape2 (Harmonic.get_signal M sinT a h f0) b M.n_samples)
  ∧ (∀ (M : FilteredNoise) (ir : List ℚ → List ℚ) (noise : Tensor2) (mags : Tensor3)
      (b f c : ℕ), Shape2 noise b M.n_samples → Shape3 mags b f c →
      Shape2 (FilteredNoise.get_signal M ir noise mags) b M.n_samples)
  ∧ (∀ (M : Wavetable) (a w f0 : Tensor3) (b f ca cw cf : ℕ), 1 ≤ f →
      Shape3 a b f ca → Shape3 w b f cw → Shape3 f0 b f cf →
      Shape2 (Wavetable.get_signal M a w f0) b M.n_samples)
  ∧ (∀ (M : Sinusoidal) (sinT : ℚ → ℚ) (a fq : Tensor3) (b f ca cf : ℕ), 1 ≤ f →
      Shape3 a b f ca → Shape3 fq b f cf →
      Shape2 (Sinusoidal.get_signal M sinT a fq) b M.n_samples)
  ∧ (∀ (M : Impact) (expf : ℚ → ℚ) (mags stdevs taus : Tensor3) (b f cm ct : ℕ), 1 ≤ f →
      Shape3 mags b f cm → Shape3 taus b f ct →
      Shape2 (Impact.get_signal M expf mags stdevs taus) b M.n_samples)
  ∧ (∀ (M : ModalFIR) (expf sinT : ℚ → ℚ) (g fq d : Tensor3) (b c : ℕ),
      Shape3 g b 1 c → Shape3 fq b 1 c → Shape3 d b 1 c →
      Shape2 (ModalFIR.get_signal M expf sinT g fq d) b (2 * M.n_samples)) := by
  refine ⟨?_, ?_, ?_, ?_, ?_, ?_, ?_⟩
  · intro M s b f c h
    exact shape2_tensortoaudio_get_signal h
  · intro M sinT a h f0 b f c ca cf hf ha hh hf0
    exact shape2_harmonic_get_signal hf ha hh hf0
  · intro M ir noise mags b f c hn hm
    exact shape2_filterednoise_get_signal hn hm
  · intro M a w f0 b f ca cw cf hf ha hw hf0
    exact shape2_wavetable_get_signal hf ha hw hf0
  · intro M sinT a fq b f ca cf hf ha hfq
    exact shape2_sinusoidal_get_signal hf ha hfq
  · intro M expf mags stdevs taus b f cm ct hf hm ht
    exact shape2_impact_get_signal hf hm ht
  · intro M expf sinT g fq d b c hg hfq hd
    exact shape2_modal_get_signal hg hfq hd

/-- Claim C1 counterexample: a `ModalFIR` constructed with `n_samples = 1`, on a valid
single-frame one-partial control input, returns a signal of shape `[1, 2]`, not
`[1, n_samples] = [1, 1]`: `get_signal` concatenates a zero block in front of the oscillator
output (synths.py line 464), doubling the length. -/
theorem c1_counterexample_modalfir_length :
    Shape2 (ModalFIR.get_signal (⟨1, 16000, none, "window", none, 8000, -3/2⟩ : ModalFIR)
      (fun _ => 1) (fun _ => 0) [[[1]]] [[[100]]] [[[0]]]) 1 2
  ∧ ¬ Shape2 (ModalFIR.get_signal (⟨1, 16000, none, "window", none, 8000, -3/2⟩ : ModalFIR)
      (fun _ => 1) (fun _ => 0) [[[1]]] [[[100]]] [[[0]]]) 1 1 := by
  constructor <;> decide

/-- Witness for C1 (amended): each module's conjunct applied at a small concrete input. -/
theorem c1_witness :
    Shape2 (TensorToAudio.get_signal ⟨⟩ [[[5]]]) 1 1
  ∧ Shape2 (Harmonic.get_signal (⟨2, 16000, none, true⟩ : Harmonic) (fun _ => 0)
      [[[1]]] [[[1]]] [[[440]]]) 1 2
  ∧ Shape2 (FilteredNoise.get_signal (⟨2, 3, none, -5⟩ : FilteredNoise) (fun _ => [])
      [[0, 0]] [[[0]]]) 1 2
  ∧ Shape2 (Wavetable.get_signal (⟨2, 16000, none⟩ : Wavetable)
      [[[1]]] [[[1, 0]]] [[[440]]]) 1 2
  ∧ Shape2 (Sinusoidal.get_signal (⟨2, 16000, none, "window", none⟩ : Sinusoidal) (fun _ => 0)
      [[[1]]] [[[440]]]) 1 2
  ∧ Shape2 (Impact.get_signal (⟨2, 16000, none, "window", 1/1000, 30⟩ : Impact) (fun _ => 1)
      [[[1]]] [[[0]]] [[[1]]]) 1 2
  ∧ Shape2 (ModalFIR.get_signal (⟨2, 16000, none, "window", none, 8000, -3/2⟩ : ModalFIR)
      (fun _ => 1) (fun _ => 0) [[[1]]] [[[100]]] [[[0]]]) 1 4 :=
  ⟨c1_get_signal_shapes.1 _ _ 1 1 1 (by decide),
   c1_get_signal_shapes.2.1 _ _ _ _ _ 1 1 1 1 1 (by decide) (by decide) (by decide)
     (by decide),
   c1_get_signal_shapes.2.2.1 _ _ _ _ 1 1 1 (by decide) (by decide),
   c1_get_signal_shapes.2.2.2.1 _ _ _ _ 1 1 1 2 1 (by decide) (by decide) (by decide)
     (by decide),
   c1_get_signal_shapes.2.2.2.2.1 _ _ _ _ 1 1 1 1 (by decide) (by decide) (by decide),
   c1_get_signal_shapes.2.2.2.2.2.1 _ _ _ _ _ 1 1 1 1 (by decide) (by decide) (by decide),
   c1_get_signal_shapes.2.2.2.2.2.2 _ _ _ _ _ _ 1 1 (by decide) (by decide) (by decide)⟩

/-- Claim C7: with single-frame `[B,1,C]` controls (the shape synths.py line 459's broadcasting
requires), `ModalFIR.get_signal` (1) feeds the oscillator bank an amplitude envelope equal
elementwise to `gains · exp(-dampings · t)` with `t = n/sample_rate`, (2) holds each partial's
frequency constant over all samples (no resampling), (3) returns exactly the concatenation of
a zero block in front of the oscillator-bank output, so that (4) the first half of the returned
signal is identically zero and (5) every returned row has length `2 · n_samples`. -/
theorem c7_modalfir_signal (M : ModalFIR) (expf sinT : ℚ → ℚ) (g fq d : Tensor3)
    (b c bi : ℕ) (hg : Shape3 g b 1 c) (hf : Shape3 fq b 1 c) (hd : Shape3 d b 1 c)
    (hb : bi < b) :
    (∀ n ci, n < M.n_samples → ci < c →
      at3 (ModalFIR.amplitude_envelopes M expf g d) bi n ci
        = at3 g bi 0 ci * expf (-(at3 d bi 0 ci * ((n : ℚ) / M.sample_rate))))
  ∧ (∀ n ci, n < M.n_samples → ci < c →
      at3 (ModalFIR.frequency_envelopes fq (ModalFIR.amplitude_envelopes M expf g d)) bi n ci
        = at3 fq bi 0 ci)
  ∧ ModalFIR.get_signal M expf sinT g fq d
      = (oscillator_bank
          (ModalFIR.frequency_envelopes fq (ModalFIR.amplitude_envelopes M expf g d))
          (ModalFIR.amplitude_envelopes M expf g d) M.sample_rate sinT).map
          (fun r => r.map (fun _ => (0 : ℚ)) ++ r)
  ∧ (∀ j, j < M.n_samples →
      at2 (ModalFIR.get_signal M expf sinT g fq d) bi j = 0)
  ∧ (∀ r ∈ ModalFIR.get_signal M expf sinT g fq d, r.length = 2 * M.n_samples) := by
  have hae : Shape3 (ModalFIR.amplitude_envelopes M expf g d) b M.n_samples c :=
    shape3_modal_amp_env hg hd
  have hfe : Shape3 (ModalFIR.frequency_envelopes fq
      (ModalFIR.amplitude_envelopes M expf g d)) b M.n_samples c :=
    shape3_modal_freq_env hf hae
  have hir : Shape2 (oscillator_bank
      (ModalFIR.frequency_envelopes fq (ModalFIR.amplitude_envelopes M expf g d))
      (ModalFIR.amplitude_envelopes M expf g d) M.sample_rate sinT) b M.n_samples :=
    shape2_oscillator_bank hfe hae
  refine ⟨?_, ?_, rfl, ?_, ?_⟩
  · intro n ci hn hci
    have h1 : bi < g.length := hg.1 ▸ hb
    have h2 : bi < d.length := hd.1 ▸ hb
    have hg0 : ((g.getD bi []).getD 0 []).length = c := shape3_frame hg hb (by omega)
    have hd0 : ((d.getD bi []).getD 0 []).length = c := shape3_frame hd hb (by omega)
    unfold ModalFIR.amplitude_envelopes at3
    rw [getD_zipWith _ g d bi [] [] [] h1 h2]
    rw [getD_map _ _ n 0 [] (by simpa using hn), getD_range 0 hn]
    rw [headD_eq_getD, headD_eq_getD,
      getD_zipWith _ _ _ ci 0 0 0 (by rw [hg0]; exact hci) (by rw [hd0]; exact hci)]
  · intro n ci hn hci
    have h1 : bi < fq.length := hf.1 ▸ hb
    have h2 : bi < (ModalFIR.amplitude_envelopes M expf g d).length := hae.1 ▸ hb
    have hfq0 : ((fq.getD bi []).getD 0 []).length = c := shape3_frame hf hb (by omega)
    have haer := shape3_row hae hb
    have haefr : (((ModalFIR.amplitude_envelopes M expf g d).getD bi []).getD n []).length
        = c := shape3_frame hae hb hn
    unfold ModalFIR.frequency_envelopes at3
    rw [getD_zipWith _ fq _ bi [] [] [] h1 h2]
    rw [getD_map _ _ n [] [] (by rw [haer.1]; exact hn)]
    rw [headD_eq_getD,
      getD_zipWith _ _ _ ci 0 0 0 (by rw [hfq0]; exact hci) (by rw [haefr]; exact hci)]
  · intro j hj
    have hb1 : bi < (oscillator_bank
        (ModalFIR.frequency_envelopes fq (ModalFIR.amplitude_envelopes M expf g d))
        (ModalFIR.amplitude_envelopes M expf g d) M.sample_rate sinT).length := hir.1 ▸ hb
    have hrl : ((oscillator_bank
        (ModalFIR.frequency_envelopes fq (ModalFIR.amplitude_envelopes M expf g d))
        (ModalFIR.amplitude_envelopes M expf g d) M.sample_rate sinT).getD bi []).length
        = M.n_samples := hir.2 _ (getD_mem hb1)
    unfold ModalFIR.get_signal at2
    rw [getD_map _ _ bi [] [] hb1]
    have hjlt : j < ((((oscillator_bank
        (ModalFIR.frequency_envelopes fq (ModalFIR.amplitude_envelopes M expf g d))
        (ModalFIR.amplitude_envelopes M expf g d) M.sample_rate sinT).getD bi []).map
          (fun _ => (0 : ℚ))) ++ ((oscillator_bank
        (ModalFIR.frequency_envelopes fq (ModalFIR.amplitude_envelopes M expf g d))
        (ModalFIR.amplitude_envelopes M expf g d) M.sample_rate sinT).getD bi [])).length := by
      simp only [List.length_append, List.length_map, hrl]
      omega
    have hjl : j < (((oscillator_bank
        (ModalFIR.frequency_envelopes fq (ModalFIR.amplitude_envelopes M expf g d))
        (ModalFIR.amplitude_envelopes M expf g d) M.sample_rate sinT).getD bi []).map
          (fun _ => (0 : ℚ))).length := by
      simp only [List.length_map, hrl]
      omega
    rw [List.getD_eq_getElem _ 0 hjlt]
    rw [List.getElem_append_left hjl]
    simp
  · exact (shape2_modal_get_signal hg hf hd).2

/-- Witness for C7: the first output sample of a concrete one-partial modal FIR is zero. -/
theorem c7_witness :
    at2 (ModalFIR.get_signal (⟨1, 16000, none, "window", none, 8000, -3/2⟩ : ModalFIR)
      (fun _ => 1) (fun _ => 0) [[[1]]] [[[100]]] [[[0]]]) 0 0 = 0 :=
  (c7_modalfir_signal _ (fun _ => 1) (fun _ => 0) _ _ _ 1 1 0 (by decide) (by decide)
      (by decide) (by decide)).2.2.2.1 0 (by decide)

/-- Claim C6: with `window_size = int(sample_rate / max_impact_frequency)` dividing `n_samples`
(so the SAME padding of `tf.nn.max_pool_with_argmax` is empty and the windows are exactly the
`n_samples / window_size` non-overlapping blocks of `window_size` samples), `Impact.get_signal`
selects exactly one peak per window of the resampled magnitude envelope: the selected index
lies in its window, carries the window's maximum value, and is the first index on ties (every
strictly earlier index in the window has a strictly smaller value); and each output sample is
the sum over windows of the peak magnitude times the Gaussian pulse
`exp(-6/τ²·(t − peak_time − τ/2)²)` centered at the peak's time `peak/sample_rate`, with width
from the resampled tau envelope. -/
theorem c6_impact_peak_selection (M : Impact) (expf : ℚ → ℚ) (mags stdevs taus : Tensor3)
    (b f bi : ℕ) (hm : Shape3 mags b f 1) (ht : Shape3 taus b f 1) (hf : 1 ≤ f)
    (hb : bi < b) (hws : 0 < M.window_size) (hdvd : M.window_size ∣ M.n_samples) :
    (∀ i, i < M.n_samples / M.window_size →
      i * M.window_size ≤ Impact.peak M mags bi i
      ∧ Impact.peak M mags bi i < (i + 1) * M.window_size
      ∧ (∀ j, i * M.window_size ≤ j → j < (i + 1) * M.window_size →
          Impact.envelope M mags bi j ≤ Impact.envelope M mags bi (Impact.peak M mags bi i))
      ∧ (∀ j, i * M.window_size ≤ j → j < Impact.peak M mags bi i →
          Impact.envelope M mags bi j < Impact.envelope M mags bi (Impact.peak M mags bi i)))
  ∧ (∀ n, n < M.n_samples →
      at2 (Impact.get_signal M expf mags stdevs taus) bi n
        = ((List.range (M.n_samples / M.window_size)).map (fun i =>
            Impact.envelope M mags bi (Impact.peak M mags bi i)
              * M.hertz_gaussian expf ((Impact.peak M mags bi i : ℚ) / M.sample_rate)
                  (Impact.envelope M taus bi n) n)).sum) := by
  constructor
  · intro i _
    have hmul : (i + 1) * M.window_size = i * M.window_size + M.window_size := by ring
    have hbd := argmaxFirst_bounds (fun n => Impact.envelope M mags bi n)
      (i * M.window_size) M.window_size hws
    refine ⟨hbd.1, ?_, ?_, ?_⟩
    · have h2 := hbd.2
      unfold Impact.peak
      omega
    · intro j hj1 hj2
      exact argmaxFirst_is_max (fun n => Impact.envelope M mags bi n)
        (i * M.window_size) M.window_size j hj1 (by omega)
    · intro j hj1 hj2
      exact argmaxFirst_first_tie (fun n => Impact.envelope M mags bi n)
        (i * M.window_size) M.window_size j hj1 hj2 hbd.2
  · intro n hn
    have hres_m : Shape3 (resample mags M.n_samples M.resample_method) b M.n_samples 1 :=
      shape3_resample hf hm M.n_samples M.resample_method
    have hres_t : Shape3 (resample taus M.n_samples M.resample_method) b M.n_samples 1 :=
      shape3_resample hf ht M.n_samples M.resample_method
    have h1 : bi < (resample mags M.n_samples M.resample_method).length := hres_m.1 ▸ hb
    have h2 : bi < (resample taus M.n_samples M.resample_method).length := hres_t.1 ▸ hb
    unfold Impact.get_signal at2
    rw [getD_zipWith _ _ _ bi [] [] [] h1 h2]
    rw [getD_map _ _ n 0 0 (by simpa using hn), getD_range 0 hn]
    rw [ceilDiv_eq hws hdvd]
    have hsub : M.n_samples / M.window_size * M.window_size - M.n_samples = 0 := by
      rw [Nat.div_mul_cancel hdvd]
      omega
    rw [hsub]
    simp only []
    rw [List.map_map]
    apply congrArg List.sum
    apply List.map_congr_left
    intro i hi
    have hiR : i < M.n_samples / M.window_size := List.mem_range.mp hi
    have hiN : i * M.window_size + M.window_size ≤ M.n_samples := by
      calc i * M.window_size + M.window_size
          = (i + 1) * M.window_size := by ring
        _ ≤ M.n_samples / M.window_size * M.window_size :=
            Nat.mul_le_mul_right _ (by omega)
        _ = M.n_samples := Nat.div_mul_cancel hdvd
    simp only [Function.comp, Nat.cast_zero]
    have e1 : (max 0 (((i * M.window_size : ℕ) : ℤ) - 0 / 2)).toNat
        = i * M.window_size := by omega
    have e2 : (min ((M.n_samples : ℕ) : ℤ)
          ((((i * M.window_size : ℕ) : ℤ) - 0 / 2) + ((M.window_size : ℕ) : ℤ))).toNat
        = i * M.window_size + M.window_size := by omega
    rw [e1, e2]
    have e3 : i * M.window_size + M.window_size - i * M.window_size = M.window_size := by
      omega
    rw [e3]
    rfl

/-- Witness for C6: on a concrete four-sample envelope with two windows of two samples, the
peak selected in the first window lies inside that window. -/
theorem c6_witness :
    0 * (⟨4, 4, none, "window", 1/1000, 2⟩ : Impact).window_size
      ≤ Impact.peak (⟨4, 4, none, "window", 1/1000, 2⟩ : Impact) [[[1], [5], [2], [0]]] 0 0
  ∧ Impact.peak (⟨4, 4, none, "window", 1/1000, 2⟩ : Impact) [[[1], [5], [2], [0]]] 0 0
      < (0 + 1) * (⟨4, 4, none, "window", 1/1000, 2⟩ : Impact).window_size := by
  have h := (c6_impact_peak_selection (⟨4, 4, none, "window", 1/1000, 2⟩ : Impact)
    (fun _ => 1) [[[1], [5], [2], [0]]] [[[1], [1], [1], [1]]] [[[1], [1], [1], [1]]]
    1 4 0 (by decide) (by decide) (by decide) (by decide)
    (by norm_num [Impact.window_size]; try decide)
    (by norm_num [Impact.window_size]; try decide)).1 0
    (by norm_num [Impact.window_size]; try decide)
  exact ⟨h.1, h.2.1⟩
